import Mathlib

/-!
# Secret finalizer garbage collector

A shallow embedding of `controllers/secret_finalizer_gc_controller.go`.

The controller talks to the cluster through `client.Client`.  The client is
modelled as explicit state: the objects it holds (`Store`), the failures the
backend may answer with (`Faults`), and the log of the calls issued so far
(`calls`).  Every controller function takes the client state and returns its Go
results together with the client state afterwards.
-/

set_option autoImplicit false

namespace SecretGC

/-! ## Errors -/

/-- The `metav1.StatusReason` values of an API status error. -/
inductive StatusReason
  | Unknown
  | NotFound
  | Conflict
  | Forbidden
  | InternalError
  | ServerTimeout
  deriving DecidableEq, Repr

/-- A Go `error` value: an API status error, an error without API status, or
`fmt.Errorf(label + ": %w", cause)`. -/
inductive Err
  | status (reason : StatusReason) (message : String)
  | plain (message : String)
  | wrapf (label : String) (cause : Err)
  deriving DecidableEq, Repr

/-- The `Error()` string of an error. -/
def Err.Error : Err → String
  | .status _ m => m
  | .plain m => m
  | .wrapf l c => l ++ ": " ++ c.Error

/-- The error one `Unwrap` below, when there is one. -/
def Err.Unwrap : Err → Option Err
  | .wrapf _ c => some c
  | _ => none

/-- The innermost error of the `Unwrap` chain. -/
def Err.rootCause : Err → Err
  | .wrapf _ c => c.rootCause
  | e => e

/-- `errors.ReasonForError`: the reason of the first API status error found
along the `Unwrap` chain (`errors.As`), `Unknown` when there is none. -/
def ReasonForError : Err → StatusReason
  | .status r _ => r
  | .plain _ => .Unknown
  | .wrapf _ c => ReasonForError c

/-- `errors.IsNotFound`. -/
def IsNotFound (err : Err) : Bool :=
  decide (ReasonForError err = .NotFound)

/-- `errors.IsConflict`. -/
def IsConflict (err : Err) : Bool :=
  decide (ReasonForError err = .Conflict)

/-- `client.IgnoreNotFound`: nil for a NotFound error, the error itself otherwise. -/
def IgnoreNotFound (err : Err) : Option Err :=
  if IsNotFound err then none else some err

/-! ## Objects -/

/-- `types.NamespacedName`. -/
structure NamespacedName where
  Namespace : String
  Name : String
  deriving DecidableEq, Repr

/-- The part of `corev1.Secret` (its `ObjectMeta`) that the controller reads
and writes. -/
structure Secret where
  Namespace : String
  Name : String
  DeletionTimestamp : Option Nat
  Finalizers : List String
  deriving DecidableEq, Repr

/-- The key a Secret is stored under. -/
def Secret.key (s : Secret) : NamespacedName :=
  { Namespace := s.Namespace, Name := s.Name }

/-- The kinds handed to `indexClientSecretRefFields` by `SetupWithManager`. -/
inductive Kind
  | Kafka
  | KafkaACL
  | KafkaTopic
  | KafkaSchema
  | Project
  | ProjectVPC
  | ServiceIntegration
  | ServiceUser
  | PG
  | Database
  | ConnectionPool
  deriving DecidableEq, Repr

/-- The list types probed by `secretIsStillNeeded`. -/
inductive ListType
  | KafkaList
  | KafkaACLList
  | KafkaTopicList
  | KafkaSchemaList
  | ProjectList
  | ProjectVPCList
  | ServiceIntegrationList
  | ServiceUserList
  | PGList
  | DatabaseList
  | ConnectionPoolList
  deriving DecidableEq, Repr

/-- The kind of the `Items` of a list type.  `ConnectionPoolList.Items` is
`[]ConnectionPool` in `api/v1alpha1/connectionpool_types.go`; the type
declarations of the other ten kinds follow the same `XList { Items []X }`
pattern of the API package. -/
def ListType.itemKind : ListType → Kind
  | .KafkaList => .Kafka
  | .KafkaACLList => .KafkaACL
  | .KafkaTopicList => .KafkaTopic
  | .KafkaSchemaList => .KafkaSchema
  | .ProjectList => .Project
  | .ProjectVPCList => .ProjectVPC
  | .ServiceIntegrationList => .ServiceIntegration
  | .ServiceUserList => .ServiceUser
  | .PGList => .PG
  | .DatabaseList => .Database
  | .ConnectionPoolList => .ConnectionPool

/-- An `aivenManagedObject`: an object of one of the referencing kinds, with
the name held by its `Spec.AuthSecretRef` (`AuthSecretRef().Name`). -/
structure AivenObject where
  kind : Kind
  Namespace : String
  Name : String
  AuthSecretRefName : String
  deriving DecidableEq, Repr

/-- A `client.Object` as the index function can meet it: an aiven managed
object, or an object of another type (a Secret). -/
inductive Object
  | aiven (o : AivenObject)
  | secret (s : Secret)
  deriving DecidableEq, Repr

/-- `fields.Selector`, as far as the controller builds one. -/
inductive Selector
  | Everything
  | OneTermEqualSelector (field : String) (value : String)
  deriving DecidableEq, Repr

/-- `client.ListOptions`. -/
structure ListOptions where
  Namespace : String
  FieldSelector : Selector
  Limit : Nat
  deriving DecidableEq, Repr

/-- `ctrl.Result`. -/
structure Result where
  Requeue : Bool
  RequeueAfter : Nat
  deriving DecidableEq, Repr

/-- `ctrl.Result{}`. -/
def Result.empty : Result :=
  { Requeue := false, RequeueAfter := 0 }

/-! ## Constants and helpers of the package -/

/-- `secretRefIndexKey` is the key the name of the secret is indexed with. -/
def secretRefIndexKey : String := "spec.auth_secret_ref.name"

/-- Modelled from the spec: the constant `secretProtectionFinalizer` is declared
outside the controller file; the spec names the one marker token the collector
owns "secret-protection". -/
def secretProtectionFinalizer : String := "secret-protection"

/-- Modelled from the spec: the helper `markedForDeletion` is declared outside
the controller file; a Secret is about to be deleted when its deletion
timestamp is set. -/
def markedForDeletion (s : Secret) : Bool :=
  s.DeletionTimestamp.isSome

/-- Modelled from the spec: the helper `requeueCtrlResult` is declared outside
the controller file; it is the "requeue after delay D" return value, with the
fixed delay `requeueTimeout` taken as a parameter. -/
def requeueCtrlResult (requeueTimeout : Nat) : Result :=
  { Requeue := true, RequeueAfter := requeueTimeout }

/-- `controllerutil.ContainsFinalizer`. -/
def ContainsFinalizer (s : Secret) (finalizer : String) : Bool :=
  s.Finalizers.elem finalizer

/-- `controllerutil.RemoveFinalizer`: every occurrence of the token is dropped,
the other tokens keep their order. -/
def RemoveFinalizer (s : Secret) (finalizer : String) : Secret :=
  { s with Finalizers := s.Finalizers.filter (fun f => f != finalizer) }

/-- `secretRefIndexFunc` indexes the client token secret names of aiven managed
objects. -/
def secretRefIndexFunc (o : Object) : List String :=
  match o with
  | .aiven aivenObj => [aivenObj.AuthSecretRefName]
  | _ => []

/-- `instancesThatUseThisSecret`: the list options that check if an instance
uses this secret. -/
def instancesThatUseThisSecret (secret : Secret) : ListOptions :=
  { Namespace := secret.Namespace
    FieldSelector := Selector.OneTermEqualSelector secretRefIndexKey secret.Name
    Limit := 1 }

/-! ## The client -/

/-- The objects held by the object store. -/
structure Store where
  secrets : List Secret
  objects : List AivenObject
  deriving DecidableEq, Repr

/-- The failures the backend answers with, per call. -/
structure Faults where
  getErr : NamespacedName → Option Err
  listErr : ListType → Option Err
  updateErr : Secret → Option Err

/-- A call issued through the client. -/
inductive Call
  | Get (key : NamespacedName)
  | List (list : ListType) (opts : ListOptions)
  | Update (s : Secret)
  deriving DecidableEq, Repr

/-- Whether a call writes to the store. -/
def Call.isWrite : Call → Bool
  | .Update _ => true
  | _ => false

/-- Whether a call is a list query. -/
def Call.isList : Call → Bool
  | .List _ _ => true
  | _ => false

/-- The client state: the store, the failures of the backend, and the calls
issued so far (oldest first). -/
structure Client where
  store : Store
  faults : Faults
  calls : List Call

/-- The Secret stored under a key. -/
def Store.lookup (st : Store) (key : NamespacedName) : Option Secret :=
  st.secrets.find? (fun s => decide (s.key = key))

/-- The store with the Secret stored under the key of `s` replaced by `s`. -/
def Store.replace (st : Store) (s : Secret) : Store :=
  { st with secrets := st.secrets.map (fun x => if x.key = s.key then s else x) }

/-- Whether a field selector selects an object, through the field index. -/
def Selector.selects (sel : Selector) (o : AivenObject) : Bool :=
  match sel with
  | .Everything => true
  | .OneTermEqualSelector field value =>
    decide (field = secretRefIndexKey) && (secretRefIndexFunc (Object.aiven o)).elem value

/-- The answer of the store to `list(kind, namespace, indexed-field=value,
limit)`: the objects of the kind in the namespace that the selector selects, at
most `Limit` of them (no cap when `Limit` is zero). -/
def Store.list (st : Store) (list : ListType) (opts : ListOptions) : List AivenObject :=
  let found := st.objects.filter (fun o =>
    decide (o.kind = list.itemKind) && decide (o.Namespace = opts.Namespace)
      && opts.FieldSelector.selects o)
  if opts.Limit = 0 then found else found.take opts.Limit

/-- The client with one more call in its log. -/
def Client.record (c : Client) (call : Call) : Client :=
  { c with calls := c.calls ++ [call] }

/-- `client.Get` of a Secret: the failure of the backend if there is one, the
stored Secret, or a NotFound status error. -/
def Client.Get (c : Client) (key : NamespacedName) : Except Err Secret × Client :=
  match c.faults.getErr key with
  | some err => (.error err, c.record (Call.Get key))
  | none =>
    match c.store.lookup key with
    | some s => (.ok s, c.record (Call.Get key))
    | none => (.error (Err.status .NotFound "secret not found"), c.record (Call.Get key))

/-- `client.List`: the failure of the backend if there is one, else the items
the store answers with. -/
def Client.List (c : Client) (list : ListType) (opts : ListOptions) :
    Except Err (List AivenObject) × Client :=
  match c.faults.listErr list with
  | some err => (.error err, c.record (Call.List list opts))
  | none => (.ok (c.store.list list opts), c.record (Call.List list opts))

/-- `client.Update` of a Secret: the failure of the backend if there is one
(a conflict among them), NotFound when nothing is stored under the key, else the
stored Secret is replaced. -/
def Client.Update (c : Client) (s : Secret) : Option Err × Client :=
  match c.faults.updateErr s with
  | some err => (some err, c.record (Call.Update s))
  | none =>
    match c.store.lookup s.key with
    | some _ => (none, { c.record (Call.Update s) with store := c.store.replace s })
    | none => (some (Err.status .NotFound "secret not found"), c.record (Call.Update s))

/-- Modelled from the spec: the helper `removeFinalizer` is declared outside the
controller file; it removes the given marker token from the marker set of the
object, leaving the other tokens, and persists the object with an update. -/
def removeFinalizer (c : Client) (o : Secret) (finalizer : String) : Option Err × Client :=
  c.Update (RemoveFinalizer o finalizer)

/-- The sweep of the object store, as its contract is described: a Secret is
physically removed once its deletion timestamp is set and its marker set is
empty. -/
def Store.sweep (st : Store) : Store :=
  { st with secrets := st.secrets.filter (fun s =>
      !(s.DeletionTimestamp.isSome && s.Finalizers.isEmpty)) }

/-! ## The controller -/

/-- The result of `Reconcile`, with the client state it leaves. -/
structure Outcome where
  result : Result
  err : Option Err
  client : Client

/-- `secretIsStillNeededBy`. -/
def secretIsStillNeededBy (c : Client) (secret : Secret) (list : ListType) :
    (Bool × Option Err) × Client :=
  match c.List list (instancesThatUseThisSecret secret) with
  | (.error err, c1) => ((false, IgnoreNotFound err), c1)
  | (.ok items, c1) => ((decide (items.length > 0), none), c1)

/-- The list types `secretIsStillNeeded` ranges over, in its order. -/
def probedListTypes : List ListType :=
  [ .KafkaList, .KafkaACLList, .KafkaTopicList, .KafkaSchemaList, .ProjectList,
    .ProjectVPCList, .ServiceIntegrationList, .ServiceUserList, .PGList,
    .DatabaseList, .ConnectionPoolList ]

/-- The `for ... range` loop of `secretIsStillNeeded` over the list types left. -/
def secretIsStillNeededLoop (secret : Secret) :
    List ListType → Client → (Bool × Option Err) × Client
  | [], c => ((false, none), c)
  | listType :: rest, c =>
    match secretIsStillNeededBy c secret listType with
    | ((_, some err), c1) =>
      ((false, some (Err.wrapf
        "unable to decide if secret is still used by some aiven resource" err)), c1)
    | ((true, none), c1) => ((true, none), c1)
    | ((false, none), c1) => secretIsStillNeededLoop secret rest c1

/-- `secretIsStillNeeded`. -/
def secretIsStillNeeded (c : Client) (secret : Secret) : (Bool × Option Err) × Client :=
  secretIsStillNeededLoop secret probedListTypes c

/-- `Reconcile`; `req` is `req.NamespacedName`.  The two `Log.Info` calls have
no effect on the client and are left out. -/
def Reconcile (requeueTimeout : Nat) (c : Client) (req : NamespacedName) : Outcome :=
  match c.Get req with
  | (.error err, c1) =>
    if IsNotFound err then
      { result := Result.empty, err := none, client := c1 }
    else
      { result := Result.empty, err := some err, client := c1 }
  | (.ok secret, c1) =>
    -- we only care about secrets that are about to be deleted and have our finalizer
    if !markedForDeletion secret || !ContainsFinalizer secret secretProtectionFinalizer then
      { result := Result.empty, err := none, client := c1 }
    else
      -- check for dangling instances that still need the secret for deletion
      match secretIsStillNeeded c1 secret with
      | ((_, some err), c2) =>
        { result := Result.empty
          err := some (Err.wrapf "unable to check if secret is still needed" err)
          client := c2 }
      | ((true, none), c2) =>
        { result := requeueCtrlResult requeueTimeout, err := none, client := c2 }
      | ((false, none), c2) =>
        -- secret is not needed anymore
        match removeFinalizer c2 secret secretProtectionFinalizer with
        | (some err, c3) =>
          { result := Result.empty
            err := some (Err.wrapf "unable to remove secret protection finalizer" err)
            client := c3 }
        | (none, c3) =>
          { result := Result.empty, err := none, client := c3 }

/-! ## Setup -/

/-- One `IndexField` registration. -/
structure IndexEntry where
  kind : Kind
  field : String
  extractValue : Object → List String

/-- The `ctrl.Manager` as `SetupWithManager` uses it: the failure `IndexField`
answers with per kind, the failure of building the controller, the index
registrations made so far (oldest first), and whether the controller for
Secrets was built. -/
structure Manager where
  indexErr : Kind → Option Err
  completeErr : Option Err
  indexed : List IndexEntry
  built : Bool

/-- `mgr.GetFieldIndexer().IndexField`. -/
def Manager.IndexField (mgr : Manager) (obj : Kind) (field : String)
    (extractValue : Object → List String) : Option Err × Manager :=
  match mgr.indexErr obj with
  | some err => (some err, mgr)
  | none =>
    (none, { mgr with indexed := mgr.indexed ++
      [{ kind := obj, field := field, extractValue := extractValue }] })

/-- `ctrl.NewControllerManagedBy(mgr).For(&corev1.Secret{}).Complete(c)`. -/
def Manager.Complete (mgr : Manager) : Option Err × Manager :=
  match mgr.completeErr with
  | some err => (some err, mgr)
  | none => (none, { mgr with built := true })

/-- `indexClientSecretRefFields`. -/
def indexClientSecretRefFields : Manager → List Kind → Option Err × Manager
  | mgr, [] => (none, mgr)
  | mgr, obj :: objs =>
    match mgr.IndexField obj secretRefIndexKey secretRefIndexFunc with
    | (some err, mgr1) => (some err, mgr1)
    | (none, mgr1) => indexClientSecretRefFields mgr1 objs

/-- The registration `indexClientSecretRefFields` makes for a kind. -/
def indexEntry (k : Kind) : IndexEntry :=
  { kind := k, field := secretRefIndexKey, extractValue := secretRefIndexFunc }

/-- The kinds `SetupWithManager` hands to `indexClientSecretRefFields`, in its
order. -/
def indexedKinds : List Kind :=
  [ .Kafka, .KafkaACL, .KafkaTopic, .KafkaSchema, .Project, .ProjectVPC,
    .ServiceIntegration, .ServiceUser, .PG, .Database, .ConnectionPool ]

/-- `SetupWithManager`. -/
def SetupWithManager (mgr : Manager) : Option Err × Manager :=
  match indexClientSecretRefFields mgr indexedKinds with
  | (some err, mgr1) =>
    (some (Err.wrapf "unable to add index for secret ref fields" err), mgr1)
  | (none, mgr1) => mgr1.Complete

/-- What the probe of one list type answers: the results of
`secretIsStillNeededBy`, without the client state. -/
def probe (c : Client) (secret : Secret) (list : ListType) : Bool × Option Err :=
  (secretIsStillNeededBy c secret list).1

/-- The list query `secretIsStillNeededBy` issues for a list type. -/
def probeCall (secret : Secret) (list : ListType) : Call :=
  Call.List list (instancesThatUseThisSecret secret)

/-- An object references a Secret when it lives in the namespace of the Secret
and its secret reference is the name of the Secret. -/
def references (o : AivenObject) (secret : Secret) : Prop :=
  o.Namespace = secret.Namespace ∧ o.AuthSecretRefName = secret.Name

instance (o : AivenObject) (secret : Secret) : Decidable (references o secret) :=
  inferInstanceAs (Decidable (_ ∧ _))

/-- The calls a run of `Reconcile` issued: the log it leaves, without the calls
that were in the log of the client it started from. -/
def Outcome.issued (out : Outcome) (c : Client) : List Call :=
  out.client.calls.drop c.calls.length

/-! ## Example clusters -/

/-- A backend that never fails. -/
def noFaults : Faults :=
  { getErr := fun _ => none, listErr := fun _ => none, updateErr := fun _ => none }

/-- The Secret `db-creds` of namespace `ns1`, deletion requested, holding the
protection marker and one marker of another holder. -/
def dbCreds : Secret :=
  { Namespace := "ns1", Name := "db-creds", DeletionTimestamp := some 1
    Finalizers := ["secret-protection", "other-holder"] }

/-- A `Database` object of namespace `ns1` that references `db-creds`. -/
def dbObject : AivenObject :=
  { kind := .Database, Namespace := "ns1", Name := "db", AuthSecretRefName := "db-creds" }

/-- A store without objects and without Secrets. -/
def emptyStore : Store :=
  { secrets := [], objects := [] }

/-- The store holding `db-creds` and the `Database` object that references it. -/
def storeWithDatabase : Store :=
  { secrets := [dbCreds], objects := [dbObject] }

/-- The store holding `db-creds` and no referencing object. -/
def storeUnreferenced : Store :=
  { secrets := [dbCreds], objects := [] }

/-- A backend whose listings all fail with NotFound. -/
def listNotFoundFaults : Faults :=
  { noFaults with listErr := fun _ => some (Err.status .NotFound "no matches for kind") }

/-- A manager whose indexer refuses `KafkaTopic`. -/
def topicFailingManager : Manager :=
  { indexErr := fun k => if k = Kind.KafkaTopic then some (Err.plain "indexer conflict") else none
    completeErr := none
    indexed := []
    built := false }

/-- A backend failure that is neither NotFound nor Conflict. -/
def backendError : Err :=
  Err.status .InternalError "etcdserver: request timed out"

/-- A backend whose listing of `KafkaTopicList` fails with `backendError`. -/
def listFailingFaults : Faults :=
  { noFaults with
    listErr := fun l => if l = ListType.KafkaTopicList then some backendError else none }

/-- A backend whose updates fail with `backendError`. -/
def updateFailingFaults : Faults :=
  { noFaults with updateErr := fun _ => some backendError }

/-- A backend whose Get fails with `backendError`. -/
def getFailingFaults : Faults :=
  { noFaults with getErr := fun _ => some backendError }

/-- A `Database` object of namespace `ns2` whose secret reference is also named
`db-creds`. -/
def foreignObject : AivenObject :=
  { kind := .Database, Namespace := "ns2", Name := "db", AuthSecretRefName := "db-creds" }

/-- The store holding `db-creds` of `ns1` and the `Database` object of `ns2`. -/
def storeWithForeign : Store :=
  { secrets := [dbCreds], objects := [foreignObject] }

/-- A fresh client over a store. -/
def clientOf (st : Store) (faults : Faults) : Client :=
  { store := st, faults := faults, calls := [] }

/-! ## The probe of one list type -/

theorem secretIsStillNeededBy_eq (c : Client) (secret : Secret) (list : ListType) :
    secretIsStillNeededBy c secret list
      = (probe c secret list, c.record (probeCall secret list)) := by
  unfold probe probeCall secretIsStillNeededBy Client.List
  cases c.faults.listErr list <;> rfl

theorem probe_congr (c1 c2 : Client) (secret : Secret) (list : ListType)
    (hs : c1.store = c2.store) (hf : c1.faults = c2.faults) :
    probe c1 secret list = probe c2 secret list := by
  unfold probe secretIsStillNeededBy Client.List
  rw [hs, hf]
  cases c2.faults.listErr list <;> rfl

theorem probe_cases (c : Client) (secret : Secret) (list : ListType) :
    probe c secret list = (false, none) ∨ probe c secret list = (true, none) ∨
      ∃ err, probe c secret list = (false, some err) ∧ c.faults.listErr list = some err
        ∧ IsNotFound err = false := by
  unfold probe secretIsStillNeededBy Client.List
  cases h : c.faults.listErr list with
  | none =>
    by_cases hl : (c.store.list list (instancesThatUseThisSecret secret)).length > 0
    · right; left; simp [hl]
    · left; simp [hl]
  | some err =>
    cases hn : IsNotFound err with
    | true => left; simp [IgnoreNotFound, hn]
    | false => right; right; exact ⟨err, by simp [IgnoreNotFound, hn], rfl, hn⟩

/-! ## The loop over the list types -/

theorem loop_cons_false (secret : Secret) (l : ListType) (rest : List ListType) (c : Client)
    (h : probe c secret l = (false, none)) :
    secretIsStillNeededLoop secret (l :: rest) c
      = secretIsStillNeededLoop secret rest (c.record (probeCall secret l)) := by
  rw [secretIsStillNeededLoop, secretIsStillNeededBy_eq, h]

theorem loop_head_true (secret : Secret) (l : ListType) (rest : List ListType) (c : Client)
    (h : probe c secret l = (true, none)) :
    secretIsStillNeededLoop secret (l :: rest) c
      = ((true, none), c.record (probeCall secret l)) := by
  rw [secretIsStillNeededLoop, secretIsStillNeededBy_eq, h]

theorem loop_head_err (secret : Secret) (l : ListType) (rest : List ListType) (c : Client)
    (b : Bool) (err : Err) (h : probe c secret l = (b, some err)) :
    secretIsStillNeededLoop secret (l :: rest) c
      = ((false, some (Err.wrapf
          "unable to decide if secret is still used by some aiven resource" err)),
          c.record (probeCall secret l)) := by
  rw [secretIsStillNeededLoop, secretIsStillNeededBy_eq, h]
  cases b <;> rfl

theorem loop_store_faults (secret : Secret) (lts : List ListType) (c : Client) :
    (secretIsStillNeededLoop secret lts c).2.store = c.store
      ∧ (secretIsStillNeededLoop secret lts c).2.faults = c.faults := by
  induction lts generalizing c with
  | nil => exact ⟨rfl, rfl⟩
  | cons l rest ih =>
    rcases probe_cases c secret l with h | h | ⟨err, h, _, _⟩
    · rw [loop_cons_false secret l rest c h]
      exact ih (c.record (probeCall secret l))
    · rw [loop_head_true secret l rest c h]
      exact ⟨rfl, rfl⟩
    · rw [loop_head_err secret l rest c false err h]
      exact ⟨rfl, rfl⟩

theorem loop_skip (secret : Secret) (pre rest : List ListType) (c : Client)
    (hpre : ∀ l ∈ pre, probe c secret l = (false, none)) :
    secretIsStillNeededLoop secret (pre ++ rest) c
      = secretIsStillNeededLoop secret rest
          { c with calls := c.calls ++ pre.map (probeCall secret) } := by
  induction pre generalizing c with
  | nil => simp
  | cons l pre ih =>
    have hl : probe c secret l = (false, none) := hpre l (List.mem_cons_self _ _)
    have hrest : ∀ x ∈ pre, probe (c.record (probeCall secret l)) secret x = (false, none) := by
      intro x hx
      rw [probe_congr (c.record (probeCall secret l)) c secret x rfl rfl]
      exact hpre x (List.mem_cons_of_mem _ hx)
    rw [List.cons_append, loop_cons_false secret l (pre ++ rest) c hl,
      ih (c.record (probeCall secret l)) hrest]
    simp [Client.record, List.append_assoc]

theorem loop_all_false (secret : Secret) (lts : List ListType) (c : Client)
    (h : ∀ l ∈ lts, probe c secret l = (false, none)) :
    secretIsStillNeededLoop secret lts c
      = ((false, none), { c with calls := c.calls ++ lts.map (probeCall secret) }) := by
  have := loop_skip secret lts [] c h
  simpa [secretIsStillNeededLoop] using this

theorem loop_false_all (secret : Secret) (lts : List ListType) (c : Client)
    (h : (secretIsStillNeededLoop secret lts c).1 = (false, none)) :
    ∀ l ∈ lts, probe c secret l = (false, none) := by
  induction lts generalizing c with
  | nil => intro l hl; cases hl
  | cons x rest ih =>
    rcases probe_cases c secret x with hx | hx | ⟨err, hx, _, _⟩
    · rw [loop_cons_false secret x rest c hx] at h
      intro l hl
      rcases List.mem_cons.mp hl with rfl | hl
      · exact hx
      · rw [← probe_congr (c.record (probeCall secret x)) c secret l rfl rfl]
        exact ih (c.record (probeCall secret x)) h l hl
    · rw [loop_head_true secret x rest c hx] at h
      simp at h
    · rw [loop_head_err secret x rest c false err hx] at h
      simp at h

/-! ## The existence prober -/

/-- C4: `secretIsStillNeededBy` answers `(false, nil)` when the list call fails
with a NotFound error, `(false, err)` with the error of the list call when it
fails with any other error, and `(n > 0, nil)` when the list call succeeds with
`n` items; so the answer to a NotFound failure is the answer to an empty
listing. -/
theorem C4_secretIsStillNeededBy_results (c : Client) (secret : Secret) (list : ListType) :
    (∀ err, (c.List list (instancesThatUseThisSecret secret)).1 = .error err →
        IsNotFound err = true → (secretIsStillNeededBy c secret list).1 = (false, none)) ∧
    (∀ err, (c.List list (instancesThatUseThisSecret secret)).1 = .error err →
        IsNotFound err = false →
        (secretIsStillNeededBy c secret list).1 = (false, some err)
          ∧ (secretIsStillNeededBy c secret list).1.2 ≠ none) ∧
    (∀ items, (c.List list (instancesThatUseThisSecret secret)).1 = .ok items →
        (secretIsStillNeededBy c secret list).1 = (decide (items.length > 0), none)) ∧
    (∀ (c0 : Client) (err : Err),
        (c.List list (instancesThatUseThisSecret secret)).1 = .error err →
        IsNotFound err = true →
        (c0.List list (instancesThatUseThisSecret secret)).1 = .ok [] →
        (secretIsStillNeededBy c secret list).1 = (secretIsStillNeededBy c0 secret list).1) := by
  have key : ∀ (d : Client),
      (secretIsStillNeededBy d secret list).1
        = match (d.List list (instancesThatUseThisSecret secret)).1 with
          | .error err => (false, IgnoreNotFound err)
          | .ok items => (decide (items.length > 0), none) := by
    intro d
    unfold secretIsStillNeededBy Client.List
    cases d.faults.listErr list <;> rfl
  refine ⟨?_, ?_, ?_, ?_⟩
  · intro err h hn
    rw [key, h]
    simp [IgnoreNotFound, hn]
  · intro err h hn
    rw [key, h]
    simp [IgnoreNotFound, hn]
  · intro items h
    rw [key, h]
  · intro c0 err h hn h0
    rw [key, key, h, h0]
    simp [IgnoreNotFound, hn]

/-- Witness of C4: a `KafkaList` listing that fails with NotFound is answered
like the empty listing of a store without objects. -/
theorem C4_secretIsStillNeededBy_results_witness :
    (secretIsStillNeededBy (clientOf emptyStore listNotFoundFaults) dbCreds .KafkaList).1
      = (secretIsStillNeededBy (clientOf emptyStore noFaults) dbCreds .KafkaList).1 :=
  (C4_secretIsStillNeededBy_results (clientOf emptyStore listNotFoundFaults) dbCreds
    .KafkaList).2.2.2 (clientOf emptyStore noFaults)
    (Err.status .NotFound "no matches for kind") rfl (by decide) rfl

/-! ## The order of the probes -/

/-- C9: `secretIsStillNeeded` probes the list types in the static order and
short-circuits.  The first list type whose probe does not answer `(false, nil)`
decides: `(true, nil)` gives `(true, nil)`, an error gives `false` with that
error wrapped; the queries issued are those of the list types up to that one
and no later one.  The answer is `(false, nil)` exactly when every one of the
eleven probes answers `(false, nil)`, and then all eleven are queried. -/
theorem C9_secretIsStillNeeded_first_decides (c : Client) (secret : Secret) :
    probedListTypes =
      [ ListType.KafkaList, ListType.KafkaACLList, ListType.KafkaTopicList,
        ListType.KafkaSchemaList, ListType.ProjectList, ListType.ProjectVPCList,
        ListType.ServiceIntegrationList, ListType.ServiceUserList, ListType.PGList,
        ListType.DatabaseList, ListType.ConnectionPoolList ] ∧
    (∀ pre l post, probedListTypes = pre ++ l :: post →
        (∀ x ∈ pre, probe c secret x = (false, none)) →
        probe c secret l = (true, none) →
        (secretIsStillNeeded c secret).1 = (true, none)
          ∧ (secretIsStillNeeded c secret).2.calls
              = c.calls ++ (pre ++ [l]).map (probeCall secret)) ∧
    (∀ pre l post err, probedListTypes = pre ++ l :: post →
        (∀ x ∈ pre, probe c secret x = (false, none)) →
        probe c secret l = (false, some err) →
        (secretIsStillNeeded c secret).1 = (false, some (Err.wrapf
            "unable to decide if secret is still used by some aiven resource" err))
          ∧ (secretIsStillNeeded c secret).2.calls
              = c.calls ++ (pre ++ [l]).map (probeCall secret)) ∧
    ((secretIsStillNeeded c secret).1 = (false, none)
        ↔ ∀ l ∈ probedListTypes, probe c secret l = (false, none)) ∧
    ((secretIsStillNeeded c secret).1 = (false, none) →
        (secretIsStillNeeded c secret).2.calls
          = c.calls ++ probedListTypes.map (probeCall secret)) ∧
    probedListTypes.length = 11 := by
  refine ⟨rfl, ?_, ?_, ?_, ?_, rfl⟩
  · intro pre l post hsplit hpre hl
    unfold secretIsStillNeeded
    rw [hsplit, loop_skip secret pre (l :: post) c hpre, loop_head_true]
    · simp [Client.record]
    · rw [← hl]
      exact probe_congr _ _ secret l rfl rfl
  · intro pre l post err hsplit hpre hl
    unfold secretIsStillNeeded
    rw [hsplit, loop_skip secret pre (l :: post) c hpre,
      loop_head_err secret l post _ false err]
    · simp [Client.record]
    · rw [← hl]
      exact probe_congr _ _ secret l rfl rfl
  · constructor
    · exact loop_false_all secret probedListTypes c
    · intro h
      unfold secretIsStillNeeded
      rw [loop_all_false secret probedListTypes c h]
  · intro h
    have hall := loop_false_all secret probedListTypes c h
    unfold secretIsStillNeeded
    rw [loop_all_false secret probedListTypes c hall]

/-- Witness of C9: with one `Database` object referencing the Secret, the ten
list types before `DatabaseList` answer `(false, nil)`, `DatabaseList` decides,
and `ConnectionPoolList` is not queried. -/
theorem C9_secretIsStillNeeded_first_decides_witness :
    (secretIsStillNeeded (clientOf storeWithDatabase noFaults) dbCreds).1 = (true, none)
      ∧ (secretIsStillNeeded (clientOf storeWithDatabase noFaults) dbCreds).2.calls
          = [] ++ ([ ListType.KafkaList, ListType.KafkaACLList, ListType.KafkaTopicList,
              ListType.KafkaSchemaList, ListType.ProjectList, ListType.ProjectVPCList,
              ListType.ServiceIntegrationList, ListType.ServiceUserList, ListType.PGList ]
              ++ [ListType.DatabaseList]).map (probeCall dbCreds) :=
  (C9_secretIsStillNeeded_first_decides (clientOf storeWithDatabase noFaults) dbCreds).2.1
    [ ListType.KafkaList, ListType.KafkaACLList, ListType.KafkaTopicList,
      ListType.KafkaSchemaList, ListType.ProjectList, ListType.ProjectVPCList,
      ListType.ServiceIntegrationList, ListType.ServiceUserList, ListType.PGList ]
    ListType.DatabaseList [ListType.ConnectionPoolList] rfl (by decide) (by decide)

/-! ## Index registration -/

theorem index_all_ok (ks : List Kind) (mgr : Manager)
    (h : ∀ k ∈ ks, mgr.indexErr k = none) :
    indexClientSecretRefFields mgr ks
      = (none, { mgr with indexed := mgr.indexed ++ ks.map indexEntry }) := by
  induction ks generalizing mgr with
  | nil => simp [indexClientSecretRefFields]
  | cons k ks ih =>
    have hk : mgr.indexErr k = none := h k (List.mem_cons_self _ _)
    rw [indexClientSecretRefFields]
    simp only [Manager.IndexField, hk]
    refine (ih { mgr with indexed := mgr.indexed ++ [indexEntry k] }
      (fun x hx => h x (List.mem_cons_of_mem _ hx))).trans ?_
    simp [List.append_assoc]

theorem index_first_err (pre : List Kind) (k : Kind) (post : List Kind) (mgr : Manager)
    (err : Err) (hpre : ∀ x ∈ pre, mgr.indexErr x = none) (hk : mgr.indexErr k = some err) :
    indexClientSecretRefFields mgr (pre ++ k :: post)
      = (some err, { mgr with indexed := mgr.indexed ++ pre.map indexEntry }) := by
  induction pre generalizing mgr with
  | nil =>
    rw [List.nil_append, indexClientSecretRefFields]
    simp [Manager.IndexField, hk]
  | cons x pre ih =>
    have hx : mgr.indexErr x = none := hpre x (List.mem_cons_self _ _)
    rw [List.cons_append, indexClientSecretRefFields]
    simp only [Manager.IndexField, hx]
    refine (ih { mgr with indexed := mgr.indexed ++ [indexEntry x] }
      (fun y hy => hpre y (List.mem_cons_of_mem _ hy)) hk).trans ?_
    simp [List.append_assoc]

/-- C10: the kinds `SetupWithManager` registers the secret-reference index for
are the kinds of the list types `secretIsStillNeeded` probes: eleven of each,
no kind twice, the i-th probed list type being the list type of the i-th
registered kind, each registered under `secretRefIndexKey` with
`secretRefIndexFunc`.  Registration stops at the first indexing error and
returns it: only the kinds before the failing one are registered,
`indexClientSecretRefFields` returns that error, and `SetupWithManager` returns
it wrapped, without building the controller. -/
theorem C10_indexed_kinds_are_probed_kinds :
    indexedKinds.length = 11 ∧ probedListTypes.length = 11 ∧
    indexedKinds.Nodup ∧ probedListTypes.Nodup ∧
    probedListTypes.map ListType.itemKind = indexedKinds ∧
    (∀ k : Kind, k ∈ indexedKinds ↔ ∃ l ∈ probedListTypes, l.itemKind = k) ∧
    (∀ mgr : Manager, (∀ k ∈ indexedKinds, mgr.indexErr k = none) →
        (SetupWithManager mgr).2.indexed = mgr.indexed ++ indexedKinds.map indexEntry
          ∧ ((SetupWithManager mgr).2.indexed.drop mgr.indexed.length).map IndexEntry.kind
              = probedListTypes.map ListType.itemKind
          ∧ (SetupWithManager mgr).1 = mgr.completeErr) ∧
    (∀ (mgr : Manager) (pre : List Kind) (k : Kind) (post : List Kind) (err : Err),
        indexedKinds = pre ++ k :: post →
        (∀ x ∈ pre, mgr.indexErr x = none) → mgr.indexErr k = some err →
        indexClientSecretRefFields mgr indexedKinds
            = (some err, { mgr with indexed := mgr.indexed ++ pre.map indexEntry })
          ∧ SetupWithManager mgr
            = (some (Err.wrapf "unable to add index for secret ref fields" err),
                { mgr with indexed := mgr.indexed ++ pre.map indexEntry })) := by
  refine ⟨rfl, rfl, by decide, by decide, rfl, ?_, ?_, ?_⟩
  · intro k
    cases k <;> decide
  · intro mgr h
    have hidx := index_all_ok indexedKinds mgr h
    have hsetup : SetupWithManager mgr
        = Manager.Complete { mgr with indexed := mgr.indexed ++ indexedKinds.map indexEntry } := by
      unfold SetupWithManager
      rw [hidx]
    rw [hsetup]
    unfold Manager.Complete
    cases hc : mgr.completeErr <;> simp [hc] <;> rfl
  · intro mgr pre k post err hsplit hpre hk
    have hidx := index_first_err pre k post mgr err hpre hk
    rw [← hsplit] at hidx
    refine ⟨hidx, ?_⟩
    unfold SetupWithManager
    rw [hidx]

/-- Witness of C10: when indexing `KafkaTopic` fails, `Kafka` and `KafkaACL` are
registered, nothing after them, and the error comes back. -/
theorem C10_indexed_kinds_are_probed_kinds_witness :
    indexClientSecretRefFields topicFailingManager indexedKinds
        = (some (Err.plain "indexer conflict"),
            { topicFailingManager with
              indexed := topicFailingManager.indexed
                ++ [Kind.Kafka, Kind.KafkaACL].map indexEntry })
      ∧ SetupWithManager topicFailingManager
        = (some (Err.wrapf "unable to add index for secret ref fields"
              (Err.plain "indexer conflict")),
            { topicFailingManager with
              indexed := topicFailingManager.indexed
                ++ [Kind.Kafka, Kind.KafkaACL].map indexEntry }) :=
  C10_indexed_kinds_are_probed_kinds.2.2.2.2.2.2.2 topicFailingManager
    [Kind.Kafka, Kind.KafkaACL] Kind.KafkaTopic
    [ Kind.KafkaSchema, Kind.Project, Kind.ProjectVPC, Kind.ServiceIntegration,
      Kind.ServiceUser, Kind.PG, Kind.Database, Kind.ConnectionPool ]
    (Err.plain "indexer conflict") rfl (by decide) (by decide)

/-! ## The store -/

theorem lookup_some_key (st : Store) (key : NamespacedName) (s : Secret)
    (h : st.lookup key = some s) : s.key = key := by
  unfold Store.lookup at h
  have := List.find?_some h
  simpa using this

theorem lookup_replace (st : Store) (s : Secret) (key : NamespacedName) :
    (st.replace s).lookup key
      = if key = s.key then (st.lookup key).map (fun _ => s) else st.lookup key := by
  unfold Store.lookup Store.replace
  simp only
  induction st.secrets with
  | nil => simp
  | cons x xs ih =>
    rw [List.map_cons]
    by_cases hx : x.key = s.key
    · by_cases hk : key = s.key
      · simp [hx, hk]
      · have hne : ¬ s.key = key := fun h => hk h.symm
        have hne2 : ¬ x.key = key := fun h => hk (h.symm.trans hx)
        simp only [hx, if_true, List.find?_cons, hne, hne2, decide_False]
        simpa [hk] using ih
    · by_cases hk : key = s.key
      · have hne2 : ¬ x.key = key := fun h => hx (h.trans hk)
        simp only [hx, if_false, List.find?_cons, hne2, decide_False]
        simpa [hk] using ih
      · by_cases hxk : x.key = key
        · simp [hx, hxk, hk]
        · simp only [hx, if_false, List.find?_cons, hxk, decide_False]
          simpa [hk] using ih

theorem store_list_pos_iff (st : Store) (secret : Secret) (l : ListType) :
    (st.list l (instancesThatUseThisSecret secret)).length > 0
      ↔ ∃ o ∈ st.objects, o.kind = l.itemKind ∧ references o secret := by
  have hsel : ∀ o : AivenObject,
      (Selector.OneTermEqualSelector secretRefIndexKey secret.Name).selects o
        = decide (o.AuthSecretRefName = secret.Name) := by
    intro o
    simp [Selector.selects, secretRefIndexFunc, eq_comm]
  have hlist : st.list l (instancesThatUseThisSecret secret)
      = (st.objects.filter (fun o =>
          decide (o.kind = l.itemKind) && decide (o.Namespace = secret.Namespace)
            && decide (o.AuthSecretRefName = secret.Name))).take 1 := by
    simp only [Store.list, instancesThatUseThisSecret, hsel]
    rfl
  rw [hlist]
  constructor
  · intro h
    have hne : st.objects.filter (fun o =>
          decide (o.kind = l.itemKind) && decide (o.Namespace = secret.Namespace)
            && decide (o.AuthSecretRefName = secret.Name)) ≠ [] := by
      intro hnil
      rw [hnil] at h
      simp at h
    obtain ⟨o, ho⟩ := List.exists_mem_of_ne_nil _ hne
    rw [List.mem_filter] at ho
    simp only [Bool.and_eq_true, decide_eq_true_eq] at ho
    exact ⟨o, ho.1, ho.2.1.1, ho.2.1.2, ho.2.2⟩
  · rintro ⟨o, ho, hk, hn, hr⟩
    have hmem : o ∈ st.objects.filter (fun o =>
          decide (o.kind = l.itemKind) && decide (o.Namespace = secret.Namespace)
            && decide (o.AuthSecretRefName = secret.Name)) :=
      List.mem_filter.mpr ⟨ho, by simp [hk, hn, hr]⟩
    revert hmem
    generalize st.objects.filter _ = fl
    intro hmem
    cases fl with
    | nil => cases hmem
    | cons x xs => simp

/-! ## The probe, in terms of the store -/

theorem probe_eq (c : Client) (secret : Secret) (l : ListType) :
    probe c secret l
      = match c.faults.listErr l with
        | some err => (false, IgnoreNotFound err)
        | none =>
          (decide ((c.store.list l (instancesThatUseThisSecret secret)).length > 0), none) := by
  unfold probe secretIsStillNeededBy Client.List
  cases c.faults.listErr l <;> rfl

theorem probe_true_iff (c : Client) (secret : Secret) (l : ListType) :
    probe c secret l = (true, none)
      ↔ c.faults.listErr l = none
          ∧ ∃ o ∈ c.store.objects, o.kind = l.itemKind ∧ references o secret := by
  rw [probe_eq, ← store_list_pos_iff]
  cases c.faults.listErr l with
  | none => simp
  | some err => simp

theorem probe_err_of (c : Client) (secret : Secret) (l : ListType) (err : Err)
    (h : c.faults.listErr l = some err) (hn : IsNotFound err = false) :
    probe c secret l = (false, some err) := by
  rw [probe_eq, h]
  simp [IgnoreNotFound, hn]

theorem probe_false_of (c : Client) (secret : Secret) (l : ListType)
    (hobj : ∀ o ∈ c.store.objects, o.kind = l.itemKind → ¬ references o secret)
    (herr : ∀ err, c.faults.listErr l = some err → IsNotFound err = true) :
    probe c secret l = (false, none) := by
  rcases probe_cases c secret l with h | h | ⟨err, _, he, hn⟩
  · exact h
  · rcases (probe_true_iff c secret l).mp h with ⟨_, o, ho, hk, hr⟩
    exact absurd hr (hobj o ho hk)
  · rw [herr err he] at hn
    cases hn

theorem probeCall_injective (secret : Secret) (l1 l2 : ListType)
    (h : probeCall secret l1 = probeCall secret l2) : l1 = l2 := by
  unfold probeCall at h
  injection h

theorem loop_stop_true (secret : Secret) (pre : List ListType) (l : ListType)
    (post : List ListType) (c : Client)
    (hpre : ∀ x ∈ pre, probe c secret x = (false, none))
    (hl : probe c secret l = (true, none)) :
    secretIsStillNeededLoop secret (pre ++ l :: post) c
      = ((true, none), { c with calls := c.calls ++ (pre ++ [l]).map (probeCall secret) }) := by
  have hl2 : probe { c with calls := c.calls ++ pre.map (probeCall secret) } secret l
      = (true, none) :=
    (probe_congr { c with calls := c.calls ++ pre.map (probeCall secret) } c secret l
      rfl rfl).trans hl
  rw [loop_skip secret pre (l :: post) c hpre, loop_head_true secret l post _ hl2]
  simp [Client.record]

theorem loop_stop_err (secret : Secret) (pre : List ListType) (l : ListType)
    (post : List ListType) (c : Client) (err : Err)
    (hpre : ∀ x ∈ pre, probe c secret x = (false, none))
    (hl : probe c secret l = (false, some err)) :
    secretIsStillNeededLoop secret (pre ++ l :: post) c
      = ((false, some (Err.wrapf
          "unable to decide if secret is still used by some aiven resource" err)),
          { c with calls := c.calls ++ (pre ++ [l]).map (probeCall secret) }) := by
  have hl2 : probe { c with calls := c.calls ++ pre.map (probeCall secret) } secret l
      = (false, some err) :=
    (probe_congr { c with calls := c.calls ++ pre.map (probeCall secret) } c secret l
      rfl rfl).trans hl
  rw [loop_skip secret pre (l :: post) c hpre, loop_head_err secret l post _ false err hl2]
  simp [Client.record]

theorem exists_first_not {α : Type} (p : α → Prop) (xs : List α)
    (h : ¬ ∀ x ∈ xs, p x) :
    ∃ pre x post, xs = pre ++ x :: post ∧ (∀ y ∈ pre, p y) ∧ ¬ p x := by
  induction xs with
  | nil => exact absurd (fun x hx => absurd hx (List.not_mem_nil x)) h
  | cons a rest ih =>
    by_cases ha : p a
    · have hrest : ¬ ∀ x ∈ rest, p x := by
        intro hr
        apply h
        intro x hx
        rcases List.mem_cons.mp hx with rfl | hx
        · exact ha
        · exact hr x hx
      obtain ⟨pre, x, post, hsplit, hpre, hx⟩ := ih hrest
      refine ⟨a :: pre, x, post, by rw [hsplit]; rfl, ?_, hx⟩
      intro y hy
      rcases List.mem_cons.mp hy with rfl | hy
      · exact ha
      · exact hpre y hy
    · exact ⟨[], a, rest, rfl, fun y hy => absurd hy (List.not_mem_nil y), ha⟩

/-- The loop either finds every probe answering `(false, nil)` and queries all
list types, or stops at the first list type whose probe answers otherwise. -/
theorem loop_char (secret : Secret) (lts : List ListType) (c : Client) :
    ((∀ l ∈ lts, probe c secret l = (false, none))
      ∧ secretIsStillNeededLoop secret lts c
          = ((false, none), { c with calls := c.calls ++ lts.map (probeCall secret) }))
    ∨ ∃ pre l post, lts = pre ++ l :: post
        ∧ (∀ x ∈ pre, probe c secret x = (false, none))
        ∧ (secretIsStillNeededLoop secret lts c).2
            = { c with calls := c.calls ++ (pre ++ [l]).map (probeCall secret) }
        ∧ ((probe c secret l = (true, none)
              ∧ (secretIsStillNeededLoop secret lts c).1 = (true, none))
            ∨ ∃ err, probe c secret l = (false, some err)
                ∧ c.faults.listErr l = some err ∧ IsNotFound err = false
                ∧ (secretIsStillNeededLoop secret lts c).1 = (false, some (Err.wrapf
                    "unable to decide if secret is still used by some aiven resource" err))) := by
  by_cases hall : ∀ l ∈ lts, probe c secret l = (false, none)
  · exact Or.inl ⟨hall, loop_all_false secret lts c hall⟩
  · right
    obtain ⟨pre, l, post, hsplit, hpre, hl⟩ :=
      exists_first_not (fun l => probe c secret l = (false, none)) lts hall
    refine ⟨pre, l, post, hsplit, hpre, ?_⟩
    rcases probe_cases c secret l with h | h | ⟨err, h, he, hn⟩
    · exact absurd h hl
    · have hloop := loop_stop_true secret pre l post c hpre h
      rw [← hsplit] at hloop
      rw [hloop]
      exact ⟨rfl, Or.inl ⟨h, rfl⟩⟩
    · have hloop := loop_stop_err secret pre l post c err hpre h
      rw [← hsplit] at hloop
      rw [hloop]
      exact ⟨rfl, Or.inr ⟨err, h, he, hn, rfl⟩⟩

/-! ## The branches of `Reconcile` -/

theorem Get_snd (c : Client) (req : NamespacedName) :
    (c.Get req).2 = c.record (Call.Get req) := by
  unfold Client.Get
  cases c.faults.getErr req with
  | some err => rfl
  | none => cases c.store.lookup req <;> rfl

theorem Get_ok_iff (c : Client) (req : NamespacedName) (s : Secret) :
    (c.Get req).1 = .ok s ↔ c.faults.getErr req = none ∧ c.store.lookup req = some s := by
  unfold Client.Get
  cases c.faults.getErr req with
  | some err => simp
  | none => cases c.store.lookup req <;> simp

theorem Get_eq (c : Client) (req : NamespacedName) :
    c.Get req = ((c.Get req).1, c.record (Call.Get req)) := by
  rw [← Get_snd]

theorem Reconcile_get_err (d : Nat) (c : Client) (req : NamespacedName) (err : Err)
    (h : (c.Get req).1 = .error err) :
    Reconcile d c req
      = { result := Result.empty
          err := if IsNotFound err then none else some err
          client := c.record (Call.Get req) } := by
  unfold Reconcile
  rw [Get_eq, h]
  simp only
  cases hn : IsNotFound err <;> simp

theorem Reconcile_ignore (d : Nat) (c : Client) (req : NamespacedName) (s : Secret)
    (h : (c.Get req).1 = .ok s)
    (hg : markedForDeletion s = false ∨ ContainsFinalizer s secretProtectionFinalizer = false) :
    Reconcile d c req
      = { result := Result.empty, err := none, client := c.record (Call.Get req) } := by
  unfold Reconcile
  rw [Get_eq, h]
  rcases hg with hg | hg <;> simp [hg]

theorem Reconcile_requeue (d : Nat) (c : Client) (req : NamespacedName) (s : Secret)
    (h : (c.Get req).1 = .ok s) (hm : markedForDeletion s = true)
    (hf : ContainsFinalizer s secretProtectionFinalizer = true)
    (hn : (secretIsStillNeeded (c.record (Call.Get req)) s).1 = (true, none)) :
    Reconcile d c req
      = { result := requeueCtrlResult d, err := none
          client := (secretIsStillNeeded (c.record (Call.Get req)) s).2 } := by
  have hpair : secretIsStillNeeded (c.record (Call.Get req)) s
      = ((true, none), (secretIsStillNeeded (c.record (Call.Get req)) s).2) :=
    Prod.ext hn rfl
  unfold Reconcile
  rw [Get_eq, h]
  simp only [hm, hf, Bool.not_true, Bool.or_self, Bool.false_eq_true, if_false]
  rw [hpair]

theorem Reconcile_query_err (d : Nat) (c : Client) (req : NamespacedName) (s : Secret)
    (err : Err)
    (h : (c.Get req).1 = .ok s) (hm : markedForDeletion s = true)
    (hf : ContainsFinalizer s secretProtectionFinalizer = true)
    (hn : (secretIsStillNeeded (c.record (Call.Get req)) s).1 = (false, some err)) :
    Reconcile d c req
      = { result := Result.empty
          err := some (Err.wrapf "unable to check if secret is still needed" err)
          client := (secretIsStillNeeded (c.record (Call.Get req)) s).2 } := by
  have hpair : secretIsStillNeeded (c.record (Call.Get req)) s
      = ((false, some err), (secretIsStillNeeded (c.record (Call.Get req)) s).2) :=
    Prod.ext hn rfl
  unfold Reconcile
  rw [Get_eq, h]
  simp only [hm, hf, Bool.not_true, Bool.or_self, Bool.false_eq_true, if_false]
  rw [hpair]

theorem Reconcile_remove (d : Nat) (c : Client) (req : NamespacedName) (s : Secret)
    (h : (c.Get req).1 = .ok s) (hm : markedForDeletion s = true)
    (hf : ContainsFinalizer s secretProtectionFinalizer = true)
    (hn : (secretIsStillNeeded (c.record (Call.Get req)) s).1 = (false, none)) :
    Reconcile d c req
      = match c.faults.updateErr (RemoveFinalizer s secretProtectionFinalizer) with
        | some err =>
          { result := Result.empty
            err := some (Err.wrapf "unable to remove secret protection finalizer" err)
            client := { c with calls := c.calls ++ Call.Get req
              :: (probedListTypes.map (probeCall s)
                  ++ [Call.Update (RemoveFinalizer s secretProtectionFinalizer)]) } }
        | none =>
          { result := Result.empty
            err := none
            client := { c with
              store := c.store.replace (RemoveFinalizer s secretProtectionFinalizer)
              calls := c.calls ++ Call.Get req
              :: (probedListTypes.map (probeCall s)
                  ++ [Call.Update (RemoveFinalizer s secretProtectionFinalizer)]) } } := by
  have hall := loop_false_all s probedListTypes (c.record (Call.Get req)) hn
  have hloop : secretIsStillNeeded (c.record (Call.Get req)) s
      = ((false, none), { c.record (Call.Get req) with
          calls := (c.record (Call.Get req)).calls ++ probedListTypes.map (probeCall s) }) :=
    loop_all_false s probedListTypes (c.record (Call.Get req)) hall
  have hlk : c.store.lookup req = some s := ((Get_ok_iff c req s).mp h).2
  have hkey : (RemoveFinalizer s secretProtectionFinalizer).key = req :=
    lookup_some_key c.store req s hlk
  unfold Reconcile
  rw [Get_eq, h]
  simp only [hm, hf, Bool.not_true, Bool.or_self, Bool.false_eq_true, if_false]
  rw [hloop]
  simp only [removeFinalizer, Client.Update, Client.record, hkey, hlk]
  cases c.faults.updateErr (RemoveFinalizer s secretProtectionFinalizer) <;>
    simp [List.append_assoc]

theorem pending_guard (s : Secret) (hdel : s.DeletionTimestamp ≠ none)
    (hmark : secretProtectionFinalizer ∈ s.Finalizers) :
    markedForDeletion s = true ∧ ContainsFinalizer s secretProtectionFinalizer = true := by
  constructor
  · unfold markedForDeletion
    cases h : s.DeletionTimestamp with
    | none => exact absurd h hdel
    | some t => rfl
  · unfold ContainsFinalizer
    simpa using hmark

/-- The three ways `Reconcile` ends for a Secret that is fetched, marked for
deletion and holds the protection marker. -/
theorem Reconcile_pending_cases (d : Nat) (c : Client) (req : NamespacedName) (s : Secret)
    (h : (c.Get req).1 = .ok s) (hm : markedForDeletion s = true)
    (hf : ContainsFinalizer s secretProtectionFinalizer = true) :
    (∃ pre l post, probedListTypes = pre ++ l :: post
        ∧ (∀ x ∈ pre, probe c s x = (false, none)) ∧ probe c s l = (true, none)
        ∧ Reconcile d c req
            = { result := requeueCtrlResult d, err := none
                client := { c with calls := c.calls ++ Call.Get req
                  :: (pre ++ [l]).map (probeCall s) } })
    ∨ (∃ pre l post err, probedListTypes = pre ++ l :: post
        ∧ (∀ x ∈ pre, probe c s x = (false, none))
        ∧ c.faults.listErr l = some err ∧ IsNotFound err = false
        ∧ Reconcile d c req
            = { result := Result.empty
                err := some (Err.wrapf "unable to check if secret is still needed"
                  (Err.wrapf "unable to decide if secret is still used by some aiven resource"
                    err))
                client := { c with calls := c.calls ++ Call.Get req
                  :: (pre ++ [l]).map (probeCall s) } })
    ∨ ((∀ x ∈ probedListTypes, probe c s x = (false, none))
        ∧ Reconcile d c req
          = match c.faults.updateErr (RemoveFinalizer s secretProtectionFinalizer) with
            | some err =>
              { result := Result.empty
                err := some (Err.wrapf "unable to remove secret protection finalizer" err)
                client := { c with calls := c.calls ++ Call.Get req
                  :: (probedListTypes.map (probeCall s)
                      ++ [Call.Update (RemoveFinalizer s secretProtectionFinalizer)]) } }
            | none =>
              { result := Result.empty
                err := none
                client := { c with
                  store := c.store.replace (RemoveFinalizer s secretProtectionFinalizer)
                  calls := c.calls ++ Call.Get req
                  :: (probedListTypes.map (probeCall s)
                      ++ [Call.Update (RemoveFinalizer s secretProtectionFinalizer)]) } }) := by
  have hcg : ∀ x, probe (c.record (Call.Get req)) s x = probe c s x :=
    fun x => probe_congr (c.record (Call.Get req)) c s x rfl rfl
  rcases loop_char s probedListTypes (c.record (Call.Get req)) with
    ⟨hall, hloop⟩ | ⟨pre, l, post, hsplit, hpre, hcl, hres⟩
  · right; right
    refine ⟨fun x hx => (hcg x).symm.trans (hall x hx), ?_⟩
    exact Reconcile_remove d c req s h hm hf (by unfold secretIsStillNeeded; rw [hloop])
  · rcases hres with ⟨hl, hr⟩ | ⟨err, hl, he, hn, hr⟩
    · left
      refine ⟨pre, l, post, hsplit, fun x hx => (hcg x).symm.trans (hpre x hx),
        (hcg l).symm.trans hl, ?_⟩
      rw [Reconcile_requeue d c req s h hm hf hr]
      unfold secretIsStillNeeded
      rw [hcl]
      simp [Client.record]
    · right; left
      refine ⟨pre, l, post, err, hsplit, fun x hx => (hcg x).symm.trans (hpre x hx),
        he, hn, ?_⟩
      rw [Reconcile_query_err d c req s _ h hm hf hr]
      unfold secretIsStillNeeded
      rw [hcl]
      simp [Client.record]

theorem exists_listType_of_kind (k : Kind) :
    ∃ l ∈ probedListTypes, l.itemKind = k := by
  cases k <;> decide

theorem issued_eq (out : Outcome) (c : Client) (calls : List Call)
    (h : out.client.calls = c.calls ++ calls) : out.issued c = calls := by
  unfold Outcome.issued
  rw [h]
  simp

/-! ## The reconciler -/

/-- C1: when the Secret exists, has its deletion timestamp set and carries the
protection marker, every read of the store succeeds, and some object of an
enumerated kind in the namespace of the Secret references it by name, then
`Reconcile` returns no error and the requeue-after-delay result, issues no
write, and leaves the store, and with it the marker set of the Secret, as it
was. -/
theorem C1_still_needed_requeues (d : Nat) (c : Client) (req : NamespacedName) (s : Secret)
    (hget : c.faults.getErr req = none)
    (hlist : ∀ l ∈ probedListTypes, c.faults.listErr l = none)
    (hS : c.store.lookup req = some s)
    (hdel : s.DeletionTimestamp ≠ none)
    (hmark : secretProtectionFinalizer ∈ s.Finalizers)
    (href : ∃ o ∈ c.store.objects, o.kind ∈ indexedKinds ∧ references o s) :
    (Reconcile d c req).err = none
      ∧ (Reconcile d c req).result = requeueCtrlResult d
      ∧ (Reconcile d c req).result.Requeue = true
      ∧ (Reconcile d c req).result.RequeueAfter = d
      ∧ (Reconcile d c req).client.store = c.store
      ∧ (Reconcile d c req).client.store.lookup req = some s
      ∧ (∀ call ∈ (Reconcile d c req).issued c, call.isWrite = false) := by
  obtain ⟨hm, hf⟩ := pending_guard s hdel hmark
  have hok : (c.Get req).1 = .ok s := (Get_ok_iff c req s).mpr ⟨hget, hS⟩
  obtain ⟨o, ho, _, hr⟩ := href
  obtain ⟨lo, hlo, hkind⟩ := exists_listType_of_kind o.kind
  have hprobe : probe c s lo = (true, none) :=
    (probe_true_iff c s lo).mpr ⟨hlist lo hlo, o, ho, hkind.symm, hr⟩
  rcases Reconcile_pending_cases d c req s hok hm hf with
    ⟨pre, l, post, hsplit, _, _, hrec⟩ | ⟨pre, l, post, err, hsplit, _, he, _, _⟩ | ⟨hall, _⟩
  · rw [hrec]
    refine ⟨rfl, rfl, rfl, rfl, rfl, hS, ?_⟩
    intro call hcall
    rw [issued_eq _ c (Call.Get req :: (pre ++ [l]).map (probeCall s)) rfl] at hcall
    rcases List.mem_cons.mp hcall with rfl | hcall
    · rfl
    · obtain ⟨x, _, rfl⟩ := List.mem_map.mp hcall
      rfl
  · have hl : l ∈ probedListTypes := by rw [hsplit]; simp
    rw [hlist l hl] at he
    cases he
  · rw [hall lo hlo] at hprobe
    cases hprobe

/-- Witness of C1: `db-creds` in `ns1`, deletion requested and marker held, with
one `Database` object of `ns1` referencing it. -/
theorem C1_still_needed_requeues_witness :
    (Reconcile 10 (clientOf storeWithDatabase noFaults) dbCreds.key).err = none
      ∧ (Reconcile 10 (clientOf storeWithDatabase noFaults) dbCreds.key).result
          = requeueCtrlResult 10
      ∧ (Reconcile 10 (clientOf storeWithDatabase noFaults) dbCreds.key).result.Requeue = true
      ∧ (Reconcile 10 (clientOf storeWithDatabase noFaults) dbCreds.key).result.RequeueAfter = 10
      ∧ (Reconcile 10 (clientOf storeWithDatabase noFaults) dbCreds.key).client.store
          = (clientOf storeWithDatabase noFaults).store
      ∧ (Reconcile 10 (clientOf storeWithDatabase noFaults) dbCreds.key).client.store.lookup
          dbCreds.key = some dbCreds
      ∧ (∀ call ∈ (Reconcile 10 (clientOf storeWithDatabase noFaults) dbCreds.key).issued
          (clientOf storeWithDatabase noFaults), call.isWrite = false) :=
  C1_still_needed_requeues 10 (clientOf storeWithDatabase noFaults) dbCreds.key dbCreds
    rfl (fun _ _ => rfl) (by decide) (by decide) (by decide)
    ⟨dbObject, by decide, by decide, by decide⟩

/-- C3: when the Get of the Secret reports NotFound, or the Secret has no
deletion timestamp, or its marker set does not hold the protection marker,
`Reconcile` does nothing: the Get is the only call it issues (no list query, no
write), the store is as it was, and it returns the empty result and no
error. -/
theorem C3_not_pending_is_noop (d : Nat) (c : Client) (req : NamespacedName)
    (h : (∃ err, (c.Get req).1 = .error err ∧ IsNotFound err = true)
      ∨ (∃ s, (c.Get req).1 = .ok s ∧ s.DeletionTimestamp = none)
      ∨ (∃ s, (c.Get req).1 = .ok s ∧ secretProtectionFinalizer ∉ s.Finalizers)) :
    (Reconcile d c req).issued c = [Call.Get req]
      ∧ (∀ call ∈ (Reconcile d c req).issued c, call.isList = false ∧ call.isWrite = false)
      ∧ (Reconcile d c req).client.store = c.store
      ∧ (Reconcile d c req).result = Result.empty
      ∧ (Reconcile d c req).result.Requeue = false
      ∧ (Reconcile d c req).result.RequeueAfter = 0
      ∧ (Reconcile d c req).err = none := by
  have hrec : Reconcile d c req
      = { result := Result.empty, err := none, client := c.record (Call.Get req) } := by
    rcases h with ⟨err, hget, hnf⟩ | ⟨s, hget, hdel⟩ | ⟨s, hget, hmark⟩
    · rw [Reconcile_get_err d c req err hget]
      simp [hnf]
    · exact Reconcile_ignore d c req s hget (Or.inl (by simp [markedForDeletion, hdel]))
    · exact Reconcile_ignore d c req s hget (Or.inr (by simpa [ContainsFinalizer] using hmark))
  rw [hrec]
  have hiss : Outcome.issued
      { result := Result.empty, err := none, client := c.record (Call.Get req) } c
      = [Call.Get req] := issued_eq _ c [Call.Get req] rfl
  refine ⟨hiss, ?_, rfl, rfl, rfl, rfl, rfl⟩
  intro call hcall
  rw [hiss] at hcall
  rw [List.mem_singleton.mp hcall]
  exact ⟨rfl, rfl⟩

/-- Witness of C3: the Secret is absent from the store, so the Get reports
NotFound. -/
theorem C3_not_pending_is_noop_witness :
    (Reconcile 10 (clientOf emptyStore noFaults) dbCreds.key).issued
        (clientOf emptyStore noFaults) = [Call.Get dbCreds.key]
      ∧ (∀ call ∈ (Reconcile 10 (clientOf emptyStore noFaults) dbCreds.key).issued
          (clientOf emptyStore noFaults), call.isList = false ∧ call.isWrite = false)
      ∧ (Reconcile 10 (clientOf emptyStore noFaults) dbCreds.key).client.store
          = (clientOf emptyStore noFaults).store
      ∧ (Reconcile 10 (clientOf emptyStore noFaults) dbCreds.key).result = Result.empty
      ∧ (Reconcile 10 (clientOf emptyStore noFaults) dbCreds.key).result.Requeue = false
      ∧ (Reconcile 10 (clientOf emptyStore noFaults) dbCreds.key).result.RequeueAfter = 0
      ∧ (Reconcile 10 (clientOf emptyStore noFaults) dbCreds.key).err = none :=
  C3_not_pending_is_noop 10 (clientOf emptyStore noFaults) dbCreds.key
    (Or.inl ⟨Err.status .NotFound "secret not found", rfl, by decide⟩)

theorem mem_removed_iff (fs : List String) (m f : String) :
    f ∈ fs.filter (fun x => x != m) ↔ f ∈ fs ∧ f ≠ m := by
  simp [List.mem_filter]

/-- The release branch: no referencing object, listings fail at most with
NotFound, the update succeeds. -/
theorem Reconcile_released (d : Nat) (c : Client) (req : NamespacedName) (s : Secret)
    (hget : c.faults.getErr req = none)
    (hS : c.store.lookup req = some s)
    (hdel : s.DeletionTimestamp ≠ none)
    (hmark : secretProtectionFinalizer ∈ s.Finalizers)
    (hnoref : ∀ o ∈ c.store.objects, ¬ references o s)
    (hlist : ∀ l ∈ probedListTypes, ∀ err, c.faults.listErr l = some err →
      IsNotFound err = true)
    (hupd : c.faults.updateErr (RemoveFinalizer s secretProtectionFinalizer) = none) :
    Reconcile d c req
      = { result := Result.empty
          err := none
          client := { c with
            store := c.store.replace (RemoveFinalizer s secretProtectionFinalizer)
            calls := c.calls ++ Call.Get req
              :: (probedListTypes.map (probeCall s)
                  ++ [Call.Update (RemoveFinalizer s secretProtectionFinalizer)]) } } := by
  obtain ⟨hm, hf⟩ := pending_guard s hdel hmark
  have hok : (c.Get req).1 = .ok s := (Get_ok_iff c req s).mpr ⟨hget, hS⟩
  have hall : ∀ l ∈ probedListTypes, probe c s l = (false, none) :=
    fun l hl => probe_false_of c s l (fun o ho _ => hnoref o ho) (hlist l hl)
  rcases Reconcile_pending_cases d c req s hok hm hf with
    ⟨pre, l, post, hsplit, _, hl, _⟩ | ⟨pre, l, post, err, hsplit, _, he, hn, _⟩ | ⟨_, hrec⟩
  · have hmem : l ∈ probedListTypes := by rw [hsplit]; simp
    rw [hall l hmem] at hl
    cases hl
  · have hmem : l ∈ probedListTypes := by rw [hsplit]; simp
    rw [hlist l hmem err he] at hn
    cases hn
  · rw [hrec, hupd]

/-- C2: when the Secret exists, has its deletion timestamp set and carries the
protection marker, no object references it, and the update succeeds, then
`Reconcile` returns the empty result (no requeue) and no error, and leaves the
Secret with its old marker set minus the protection marker: the marker is gone,
every other token is still there, the deletion timestamp and the identity of
the Secret are untouched, and nothing else in the store changed. -/
theorem C2_release_removes_only_the_marker (d : Nat) (c : Client) (req : NamespacedName)
    (s : Secret)
    (hget : c.faults.getErr req = none)
    (hS : c.store.lookup req = some s)
    (hdel : s.DeletionTimestamp ≠ none)
    (hmark : secretProtectionFinalizer ∈ s.Finalizers)
    (hnoref : ∀ o ∈ c.store.objects, ¬ references o s)
    (hlist : ∀ l ∈ probedListTypes, ∀ err, c.faults.listErr l = some err →
      IsNotFound err = true)
    (hupd : c.faults.updateErr (RemoveFinalizer s secretProtectionFinalizer) = none) :
    (Reconcile d c req).err = none
      ∧ (Reconcile d c req).result = Result.empty
      ∧ (Reconcile d c req).result.Requeue = false
      ∧ (Reconcile d c req).result.RequeueAfter = 0
      ∧ (∃ s1, (Reconcile d c req).client.store.lookup req = some s1
          ∧ s1.Finalizers = s.Finalizers.filter (fun f => f != secretProtectionFinalizer)
          ∧ secretProtectionFinalizer ∉ s1.Finalizers
          ∧ (∀ f, f ≠ secretProtectionFinalizer → (f ∈ s1.Finalizers ↔ f ∈ s.Finalizers))
          ∧ s1.DeletionTimestamp = s.DeletionTimestamp
          ∧ s1.Namespace = s.Namespace ∧ s1.Name = s.Name)
      ∧ (∀ key, key ≠ req →
          (Reconcile d c req).client.store.lookup key = c.store.lookup key)
      ∧ (Reconcile d c req).client.store.objects = c.store.objects
      ∧ (Reconcile d c req).issued c
          = Call.Get req :: (probedListTypes.map (probeCall s)
              ++ [Call.Update (RemoveFinalizer s secretProtectionFinalizer)]) := by
  have hkey : (RemoveFinalizer s secretProtectionFinalizer).key = req :=
    lookup_some_key c.store req s hS
  rw [Reconcile_released d c req s hget hS hdel hmark hnoref hlist hupd]
  refine ⟨rfl, rfl, rfl, rfl, ?_, ?_, rfl, issued_eq _ c _ rfl⟩
  · refine ⟨RemoveFinalizer s secretProtectionFinalizer, ?_, rfl, ?_, ?_, rfl, rfl, rfl⟩
    · simp only [lookup_replace, hkey, hS, if_true, Option.map_some']
    · intro hin
      have := (mem_removed_iff s.Finalizers secretProtectionFinalizer
        secretProtectionFinalizer).mp hin
      exact this.2 rfl
    · intro f hf
      constructor
      · intro hin
        exact ((mem_removed_iff s.Finalizers secretProtectionFinalizer f).mp hin).1
      · intro hin
        exact (mem_removed_iff s.Finalizers secretProtectionFinalizer f).mpr ⟨hin, hf⟩
  · intro key hne
    simp only [lookup_replace, hkey, hne, if_false]

/-- Witness of C2: `db-creds` holds the protection marker and the marker of
another holder, and nothing references it. -/
theorem C2_release_removes_only_the_marker_witness :
    (Reconcile 10 (clientOf storeUnreferenced noFaults) dbCreds.key).err = none
      ∧ (Reconcile 10 (clientOf storeUnreferenced noFaults) dbCreds.key).result = Result.empty
      ∧ (∃ s1, (Reconcile 10 (clientOf storeUnreferenced noFaults)
            dbCreds.key).client.store.lookup dbCreds.key = some s1
          ∧ s1.Finalizers = dbCreds.Finalizers.filter (fun f => f != secretProtectionFinalizer)
          ∧ secretProtectionFinalizer ∉ s1.Finalizers
          ∧ (∀ f, f ≠ secretProtectionFinalizer →
              (f ∈ s1.Finalizers ↔ f ∈ dbCreds.Finalizers))
          ∧ s1.DeletionTimestamp = dbCreds.DeletionTimestamp
          ∧ s1.Namespace = dbCreds.Namespace ∧ s1.Name = dbCreds.Name) :=
  have h := C2_release_removes_only_the_marker 10 (clientOf storeUnreferenced noFaults)
    dbCreds.key dbCreds rfl (by decide) (by decide) (by decide)
    (fun o ho => absurd ho (List.not_mem_nil o)) (fun _ _ _ he => by cases he) rfl
  ⟨h.1, h.2.1, h.2.2.2.2.1⟩

theorem probeCall_mem_reads (s : Secret) (l : ListType) (req : NamespacedName)
    (lts : List ListType)
    (h : probeCall s l ∈ Call.Get req :: lts.map (probeCall s)) : l ∈ lts := by
  rcases List.mem_cons.mp h with h | h
  · cases h
  · obtain ⟨x, hx, hxl⟩ := List.mem_map.mp h
    rw [← probeCall_injective s x l hxl]
    exact hx

theorem reads_not_write (s : Secret) (req : NamespacedName) (lts : List ListType)
    (call : Call) (h : call ∈ Call.Get req :: lts.map (probeCall s)) :
    call.isWrite = false := by
  rcases List.mem_cons.mp h with rfl | h
  · rfl
  · obtain ⟨x, _, rfl⟩ := List.mem_map.mp h
    rfl

/-- C5: for a Secret that is fetched with its deletion timestamp set and the
protection marker present, if a list query issued during the iteration over the
kinds fails with an error other than NotFound, `Reconcile` returns a non-nil
error and the empty result (no requeue after a delay), issues no write, and
leaves the store, and with it the marker set of the Secret, exactly as it
was. -/
theorem C5_query_error_aborts (d : Nat) (c : Client) (req : NamespacedName) (s : Secret)
    (l : ListType) (err : Err)
    (hok : (c.Get req).1 = .ok s)
    (hdel : s.DeletionTimestamp ≠ none)
    (hmark : secretProtectionFinalizer ∈ s.Finalizers)
    (hissued : probeCall s l ∈ (Reconcile d c req).issued c)
    (herr : c.faults.listErr l = some err)
    (hnf : IsNotFound err = false) :
    (Reconcile d c req).err ≠ none
      ∧ (Reconcile d c req).result = Result.empty
      ∧ (Reconcile d c req).result.Requeue = false
      ∧ (Reconcile d c req).result.RequeueAfter = 0
      ∧ (∀ call ∈ (Reconcile d c req).issued c, call.isWrite = false)
      ∧ (Reconcile d c req).client.store = c.store
      ∧ (Reconcile d c req).client.store.lookup req = some s := by
  obtain ⟨hm, hf⟩ := pending_guard s hdel hmark
  have hS : c.store.lookup req = some s := ((Get_ok_iff c req s).mp hok).2
  have hprobe : probe c s l = (false, some err) := probe_err_of c s l err herr hnf
  rcases Reconcile_pending_cases d c req s hok hm hf with
    ⟨pre, l1, post, _, hpre, hl1, hrec⟩ | ⟨pre, l1, post, e1, _, _, _, _, hrec⟩ | ⟨hall, hrec⟩
  · rw [hrec, issued_eq _ c (Call.Get req :: (pre ++ [l1]).map (probeCall s)) rfl] at hissued
    have hmem := probeCall_mem_reads s l req (pre ++ [l1]) hissued
    rcases List.mem_append.mp hmem with hmem | hmem
    · rw [hpre l hmem] at hprobe
      cases hprobe
    · rw [List.mem_singleton.mp hmem, hl1] at hprobe
      cases hprobe
  · rw [hrec]
    refine ⟨by simp, rfl, rfl, rfl, ?_, rfl, hS⟩
    intro call hcall
    rw [issued_eq _ c (Call.Get req :: (pre ++ [l1]).map (probeCall s)) rfl] at hcall
    exact reads_not_write s req (pre ++ [l1]) call hcall
  · have hiss : (Reconcile d c req).issued c
        = Call.Get req :: (probedListTypes.map (probeCall s)
            ++ [Call.Update (RemoveFinalizer s secretProtectionFinalizer)]) := by
      rw [hrec]
      cases c.faults.updateErr (RemoveFinalizer s secretProtectionFinalizer) <;>
        exact issued_eq _ c _ rfl
    rw [hiss] at hissued
    have hmem : l ∈ probedListTypes := by
      rcases List.mem_cons.mp hissued with h | h
      · cases h
      · rcases List.mem_append.mp h with h | h
        · obtain ⟨x, hx, hxl⟩ := List.mem_map.mp h
          rw [← probeCall_injective s x l hxl]
          exact hx
        · rw [List.mem_singleton] at h
          cases h
    rw [hall l hmem] at hprobe
    cases hprobe

/-- Witness of C5: the listing of `KafkaTopicList` fails with an internal error
while `db-creds` is pending. -/
theorem C5_query_error_aborts_witness :
    (Reconcile 10 (clientOf storeUnreferenced listFailingFaults) dbCreds.key).err ≠ none
      ∧ (Reconcile 10 (clientOf storeUnreferenced listFailingFaults) dbCreds.key).result
          = Result.empty
      ∧ (Reconcile 10 (clientOf storeUnreferenced listFailingFaults)
          dbCreds.key).result.Requeue = false
      ∧ (Reconcile 10 (clientOf storeUnreferenced listFailingFaults)
          dbCreds.key).result.RequeueAfter = 0
      ∧ (∀ call ∈ (Reconcile 10 (clientOf storeUnreferenced listFailingFaults)
          dbCreds.key).issued (clientOf storeUnreferenced listFailingFaults),
            call.isWrite = false)
      ∧ (Reconcile 10 (clientOf storeUnreferenced listFailingFaults) dbCreds.key).client.store
          = (clientOf storeUnreferenced listFailingFaults).store
      ∧ (Reconcile 10 (clientOf storeUnreferenced listFailingFaults)
          dbCreds.key).client.store.lookup dbCreds.key = some dbCreds :=
  C5_query_error_aborts 10 (clientOf storeUnreferenced listFailingFaults) dbCreds.key dbCreds
    ListType.KafkaTopicList backendError rfl (by decide) (by decide) (by decide)
    (by decide) (by decide)

/-! ## How store errors surface -/

theorem issued_of_ok (d : Nat) (c : Client) (req : NamespacedName) (s : Secret)
    (hok : (c.Get req).1 = .ok s) :
    ((Reconcile d c req).issued c = [Call.Get req])
    ∨ (∃ lts : List ListType,
        (Reconcile d c req).issued c = Call.Get req :: lts.map (probeCall s))
    ∨ ((∀ x ∈ probedListTypes, probe c s x = (false, none))
        ∧ (Reconcile d c req).issued c
            = Call.Get req :: (probedListTypes.map (probeCall s)
                ++ [Call.Update (RemoveFinalizer s secretProtectionFinalizer)])
        ∧ (Reconcile d c req).err
            = (c.faults.updateErr (RemoveFinalizer s secretProtectionFinalizer)).map
                (Err.wrapf "unable to remove secret protection finalizer")) := by
  by_cases hp : markedForDeletion s = true ∧ ContainsFinalizer s secretProtectionFinalizer = true
  · obtain ⟨hm, hf⟩ := hp
    rcases Reconcile_pending_cases d c req s hok hm hf with
      ⟨pre, l1, post, _, _, _, hrec⟩ | ⟨pre, l1, post, e1, _, _, _, _, hrec⟩ | ⟨hall, hrec⟩
    · right; left
      exact ⟨pre ++ [l1], by rw [hrec]; exact issued_eq _ c _ rfl⟩
    · right; left
      exact ⟨pre ++ [l1], by rw [hrec]; exact issued_eq _ c _ rfl⟩
    · right; right
      refine ⟨hall, ?_, ?_⟩
      · rw [hrec]
        cases c.faults.updateErr (RemoveFinalizer s secretProtectionFinalizer) <;>
          exact issued_eq _ c _ rfl
      · rw [hrec]
        cases c.faults.updateErr (RemoveFinalizer s secretProtectionFinalizer) <;> rfl
  · left
    have hg : markedForDeletion s = false
        ∨ ContainsFinalizer s secretProtectionFinalizer = false := by
      cases hm : markedForDeletion s
      · exact Or.inl rfl
      · cases hf : ContainsFinalizer s secretProtectionFinalizer
        · exact Or.inr rfl
        · exact absurd ⟨hm, hf⟩ hp
    rw [Reconcile_ignore d c req s hok hg]
    exact issued_eq _ c _ rfl

/-- Counterexample to C6: the listing of `KafkaTopicList` fails with an internal
error, which is neither NotFound nor Conflict, while `db-creds` is pending; the
error `Reconcile` returns is not that error but the error wrapped twice, with
another message.  An update that fails with the same error comes back wrapped
once. -/
theorem C6_counterexample :
    IsNotFound backendError = false ∧ IsConflict backendError = false
      ∧ listFailingFaults.listErr ListType.KafkaTopicList = some backendError
      ∧ probeCall dbCreds ListType.KafkaTopicList
          ∈ (Reconcile 10 (clientOf storeUnreferenced listFailingFaults) dbCreds.key).issued
              (clientOf storeUnreferenced listFailingFaults)
      ∧ (Reconcile 10 (clientOf storeUnreferenced listFailingFaults) dbCreds.key).err
          ≠ some backendError
      ∧ (Reconcile 10 (clientOf storeUnreferenced listFailingFaults) dbCreds.key).err
          = some (Err.wrapf "unable to check if secret is still needed"
              (Err.wrapf "unable to decide if secret is still used by some aiven resource"
                backendError))
      ∧ ((Reconcile 10 (clientOf storeUnreferenced listFailingFaults) dbCreds.key).err.map
            Err.Error ≠ some backendError.Error)
      ∧ (Reconcile 10 (clientOf storeUnreferenced updateFailingFaults) dbCreds.key).err
          ≠ some backendError := by
  decide

/-- C6, amended: a store error that is neither NotFound nor Conflict surfaces as
follows.  Raised by the Get of the Secret, it is returned itself, unchanged.
Raised by a list query that was issued, it is returned wrapped twice, under
"unable to check if secret is still needed" and "unable to decide if secret is
still used by some aiven resource".  Raised by the marker-removal update, it is
returned wrapped once, under "unable to remove secret protection finalizer".
In the wrapped cases the store error is reached by unwrapping, and its message
ends the message of the returned error. -/
theorem C6_store_errors_surface (d : Nat) (c : Client) (req : NamespacedName) (e : Err)
    (hnf : IsNotFound e = false) (hnc : IsConflict e = false) :
    ((c.Get req).1 = .error e → (Reconcile d c req).err = some e)
      ∧ (∀ s l, (c.Get req).1 = .ok s →
          probeCall s l ∈ (Reconcile d c req).issued c → c.faults.listErr l = some e →
          ∃ r, (Reconcile d c req).err = some r
            ∧ r = Err.wrapf "unable to check if secret is still needed"
                (Err.wrapf "unable to decide if secret is still used by some aiven resource" e)
            ∧ r.Unwrap.bind Err.Unwrap = some e
            ∧ r.Error = "unable to check if secret is still needed" ++ ": "
                ++ ("unable to decide if secret is still used by some aiven resource" ++ ": "
                ++ e.Error)
            ∧ IsNotFound r = false ∧ IsConflict r = false)
      ∧ (∀ s, (c.Get req).1 = .ok s →
          Call.Update (RemoveFinalizer s secretProtectionFinalizer)
            ∈ (Reconcile d c req).issued c →
          c.faults.updateErr (RemoveFinalizer s secretProtectionFinalizer) = some e →
          ∃ r, (Reconcile d c req).err = some r
            ∧ r = Err.wrapf "unable to remove secret protection finalizer" e
            ∧ r.Unwrap = some e
            ∧ r.Error = "unable to remove secret protection finalizer" ++ ": " ++ e.Error
            ∧ IsNotFound r = false ∧ IsConflict r = false) := by
  refine ⟨?_, ?_, ?_⟩
  · intro hget
    rw [Reconcile_get_err d c req e hget]
    simp [hnf]
  · intro s l hok hissued herr
    have hprobe : probe c s l = (false, some e) := probe_err_of c s l e herr hnf
    have hrec : (Reconcile d c req).err
        = some (Err.wrapf "unable to check if secret is still needed"
            (Err.wrapf "unable to decide if secret is still used by some aiven resource" e)) := by
      by_cases hp : markedForDeletion s = true
          ∧ ContainsFinalizer s secretProtectionFinalizer = true
      · obtain ⟨hm, hf⟩ := hp
        rcases Reconcile_pending_cases d c req s hok hm hf with
          ⟨pre, l1, post, _, hpre, hl1, hrec⟩ | ⟨pre, l1, post, e1, _, hpre, he1, _, hrec⟩
            | ⟨hall, _⟩
        · rw [hrec, issued_eq _ c (Call.Get req :: (pre ++ [l1]).map (probeCall s)) rfl]
            at hissued
          have hmem := probeCall_mem_reads s l req (pre ++ [l1]) hissued
          rcases List.mem_append.mp hmem with hmem | hmem
          · rw [hpre l hmem] at hprobe
            cases hprobe
          · rw [List.mem_singleton.mp hmem, hl1] at hprobe
            cases hprobe
        · have hiss := hissued
          rw [hrec, issued_eq _ c (Call.Get req :: (pre ++ [l1]).map (probeCall s)) rfl]
            at hiss
          have hmem := probeCall_mem_reads s l req (pre ++ [l1]) hiss
          rcases List.mem_append.mp hmem with hmem | hmem
          · rw [hpre l hmem] at hprobe
            cases hprobe
          · rw [List.mem_singleton.mp hmem] at herr
            rw [he1] at herr
            injection herr with herr
            rw [hrec, herr]
        · have : l ∈ probedListTypes := by cases l <;> decide
          rw [hall l this] at hprobe
          cases hprobe
      · have hg : markedForDeletion s = false
            ∨ ContainsFinalizer s secretProtectionFinalizer = false := by
          cases hm : markedForDeletion s
          · exact Or.inl rfl
          · cases hf : ContainsFinalizer s secretProtectionFinalizer
            · exact Or.inr rfl
            · exact absurd ⟨hm, hf⟩ hp
        rw [Reconcile_ignore d c req s hok hg, issued_eq _ c [Call.Get req] rfl] at hissued
        simp [probeCall] at hissued
    refine ⟨_, hrec, rfl, rfl, rfl, ?_, ?_⟩
    · simpa [IsNotFound, ReasonForError] using hnf
    · simpa [IsConflict, ReasonForError] using hnc
  · intro s hok hissued herr
    have hrec : (Reconcile d c req).err
        = some (Err.wrapf "unable to remove secret protection finalizer" e) := by
      rcases issued_of_ok d c req s hok with hi | ⟨lts, hi⟩ | ⟨_, _, he⟩
      · rw [hi] at hissued
        simp at hissued
      · rw [hi] at hissued
        simp [probeCall] at hissued
      · rw [he, herr]
        rfl
    refine ⟨_, hrec, rfl, rfl, rfl, ?_, ?_⟩
    · simpa [IsNotFound, ReasonForError] using hnf
    · simpa [IsConflict, ReasonForError] using hnc

/-- Witness of C6: the listing of `KafkaTopicList` fails with an internal error
while `db-creds` is pending. -/
theorem C6_store_errors_surface_witness :
    ∃ r, (Reconcile 10 (clientOf storeUnreferenced listFailingFaults) dbCreds.key).err = some r
      ∧ r = Err.wrapf "unable to check if secret is still needed"
          (Err.wrapf "unable to decide if secret is still used by some aiven resource"
            backendError)
      ∧ r.Unwrap.bind Err.Unwrap = some backendError
      ∧ r.Error = "unable to check if secret is still needed" ++ ": "
          ++ ("unable to decide if secret is still used by some aiven resource" ++ ": "
          ++ backendError.Error)
      ∧ IsNotFound r = false ∧ IsConflict r = false :=
  (C6_store_errors_surface 10 (clientOf storeUnreferenced listFailingFaults) dbCreds.key
    backendError (by decide) (by decide)).2.1 dbCreds ListType.KafkaTopicList rfl
    (by decide) (by decide)

/-! ## Namespace isolation -/

theorem store_list_mem (st : Store) (s : Secret) (l : ListType) (o : AivenObject)
    (h : o ∈ st.list l (instancesThatUseThisSecret s)) :
    o ∈ st.objects ∧ o.kind = l.itemKind ∧ references o s := by
  have hsel : (Selector.OneTermEqualSelector secretRefIndexKey s.Name).selects o
      = decide (o.AuthSecretRefName = s.Name) := by
    simp [Selector.selects, secretRefIndexFunc, eq_comm]
  unfold Store.list instancesThatUseThisSecret at h
  simp only [Nat.one_ne_zero, if_false] at h
  have h2 := List.mem_of_mem_take h
  rw [List.mem_filter, hsel] at h2
  simp only [Bool.and_eq_true, decide_eq_true_eq] at h2
  exact ⟨h2.1, h2.2.1.1, h2.2.1.2, h2.2.2⟩

/-- C7: the query built by `instancesThatUseThisSecret` has the namespace of the
Secret, the single-term equality selector on "spec.auth_secret_ref.name" with
the name of the Secret, and limit 1.  The store answers it with at most one
object, of the list type, from the namespace of the Secret, referencing it by
name.  So an object of another namespace never changes what
`secretIsStillNeededBy` answers; when every object whose reference is the name
of the Secret lives in another namespace, `secretIsStillNeededBy` answers false
for every list type, and `Reconcile` removes the marker. -/
theorem C7_namespace_isolation (s : Secret) :
    (instancesThatUseThisSecret s).Namespace = s.Namespace
      ∧ (instancesThatUseThisSecret s).FieldSelector
          = Selector.OneTermEqualSelector "spec.auth_secret_ref.name" s.Name
      ∧ (instancesThatUseThisSecret s).Limit = 1
      ∧ (∀ (st : Store) (l : ListType),
          (st.list l (instancesThatUseThisSecret s)).length ≤ 1
            ∧ ∀ o ∈ st.list l (instancesThatUseThisSecret s),
                o.Namespace = s.Namespace ∧ o.AuthSecretRefName = s.Name
                  ∧ o.kind = l.itemKind)
      ∧ (∀ (c : Client) (l : ListType) (o : AivenObject) (objs1 objs2 : List AivenObject),
          o.Namespace ≠ s.Namespace → c.store.objects = objs1 ++ o :: objs2 →
          (secretIsStillNeededBy c s l).1
            = (secretIsStillNeededBy
                { c with store := { c.store with objects := objs1 ++ objs2 } } s l).1)
      ∧ (∀ (c : Client) (l : ListType),
          (∀ o ∈ c.store.objects, o.AuthSecretRefName = s.Name → o.Namespace ≠ s.Namespace) →
          (secretIsStillNeededBy c s l).1.1 = false)
      ∧ (∀ (d : Nat) (c : Client) (req : NamespacedName),
          c.faults.getErr req = none → c.store.lookup req = some s →
          s.DeletionTimestamp ≠ none → secretProtectionFinalizer ∈ s.Finalizers →
          (∀ o ∈ c.store.objects, o.AuthSecretRefName = s.Name → o.Namespace ≠ s.Namespace) →
          (∀ l ∈ probedListTypes, ∀ err, c.faults.listErr l = some err →
            IsNotFound err = true) →
          c.faults.updateErr (RemoveFinalizer s secretProtectionFinalizer) = none →
          (Reconcile d c req).err = none ∧ (Reconcile d c req).result = Result.empty
            ∧ (Reconcile d c req).client.store.lookup req
                = some (RemoveFinalizer s secretProtectionFinalizer)
            ∧ secretProtectionFinalizer
                ∉ (RemoveFinalizer s secretProtectionFinalizer).Finalizers) := by
  refine ⟨rfl, rfl, rfl, ?_, ?_, ?_, ?_⟩
  · intro st l
    constructor
    · unfold Store.list instancesThatUseThisSecret
      simp only [Nat.one_ne_zero, if_false, List.length_take]
      exact Nat.min_le_left _ _
    · intro o ho
      obtain ⟨_, hk, hr⟩ := store_list_mem st s l o ho
      exact ⟨hr.1, hr.2, hk⟩
  · intro c l o objs1 objs2 hns hobjs
    change probe c s l
      = probe { c with store := { c.store with objects := objs1 ++ objs2 } } s l
    rw [probe_eq, probe_eq]
    cases c.faults.listErr l with
    | some err => rfl
    | none =>
      simp only
      have hiff : (c.store.list l (instancesThatUseThisSecret s)).length > 0
          ↔ (Store.list { c.store with objects := objs1 ++ objs2 } l
              (instancesThatUseThisSecret s)).length > 0 := by
        rw [store_list_pos_iff, store_list_pos_iff, hobjs]
        constructor
        · rintro ⟨x, hx, hk, hr⟩
          refine ⟨x, ?_, hk, hr⟩
          rcases List.mem_append.mp hx with hx | hx
          · exact List.mem_append_left _ hx
          · rcases List.mem_cons.mp hx with rfl | hx
            · exact absurd hr.1 hns
            · exact List.mem_append_right _ hx
        · rintro ⟨x, hx, hk, hr⟩
          refine ⟨x, ?_, hk, hr⟩
          rcases List.mem_append.mp hx with hx | hx
          · exact List.mem_append_left _ hx
          · exact List.mem_append_right _ (List.mem_cons_of_mem _ hx)
      rw [decide_eq_decide.mpr hiff]
  · intro c l hforeign
    change (probe c s l).1 = false
    rcases probe_cases c s l with h | h | ⟨err, h, _, _⟩
    · rw [h]
    · obtain ⟨_, o, ho, _, hr⟩ := (probe_true_iff c s l).mp h
      exact absurd hr.1 (hforeign o ho hr.2)
    · rw [h]
  · intro d c req hget hS hdel hmark hforeign hlist hupd
    have hnoref : ∀ o ∈ c.store.objects, ¬ references o s :=
      fun o ho hr => hforeign o ho hr.2 hr.1
    have hkey : (RemoveFinalizer s secretProtectionFinalizer).key = req :=
      lookup_some_key c.store req s hS
    rw [Reconcile_released d c req s hget hS hdel hmark hnoref hlist hupd]
    refine ⟨rfl, rfl, ?_, ?_⟩
    · simp only [lookup_replace, hkey, hS, if_true, Option.map_some']
    · intro hin
      exact ((mem_removed_iff s.Finalizers secretProtectionFinalizer
        secretProtectionFinalizer).mp hin).2 rfl

/-- Witness of C7: a `Database` object of `ns2` references a Secret named
`db-creds`; the Secret `db-creds` of `ns1` is released all the same. -/
theorem C7_namespace_isolation_witness :
    (Reconcile 10 (clientOf storeWithForeign noFaults) dbCreds.key).err = none
      ∧ (Reconcile 10 (clientOf storeWithForeign noFaults) dbCreds.key).result = Result.empty
      ∧ (Reconcile 10 (clientOf storeWithForeign noFaults) dbCreds.key).client.store.lookup
          dbCreds.key = some (RemoveFinalizer dbCreds secretProtectionFinalizer)
      ∧ secretProtectionFinalizer
          ∉ (RemoveFinalizer dbCreds secretProtectionFinalizer).Finalizers :=
  (C7_namespace_isolation dbCreds).2.2.2.2.2.2 10 (clientOf storeWithForeign noFaults)
    dbCreds.key rfl (by decide) (by decide) (by decide) (by decide)
    (fun _ _ _ he => by cases he) rfl

/-! ## Idempotence -/

theorem replace_mem_key (st : Store) (s1 x : Secret)
    (hx : x ∈ (st.replace s1).secrets) (hk : x.key = s1.key) : x = s1 := by
  unfold Store.replace at hx
  obtain ⟨y, _, hy⟩ := List.mem_map.mp hx
  by_cases hyk : y.key = s1.key
  · rw [if_pos hyk] at hy
    exact hy.symm
  · rw [if_neg hyk] at hy
    rw [← hy] at hk
    exact absurd hk hyk

theorem sweep_lookup (st : Store) (s1 : Secret) :
    ((st.replace s1).sweep).lookup s1.key = none
      ∨ ((st.replace s1).sweep).lookup s1.key = some s1 := by
  cases h : ((st.replace s1).sweep).lookup s1.key with
  | none => exact Or.inl rfl
  | some x =>
    right
    have hkey := lookup_some_key _ _ _ h
    unfold Store.lookup Store.sweep at h
    have hmem := List.mem_of_find?_eq_some h
    have hmem2 := (List.mem_filter.mp hmem).1
    rw [replace_mem_key st s1 x hmem2 hkey]

theorem Reconcile_noop_of_lookup (d : Nat) (c : Client) (req : NamespacedName)
    (h : c.store.lookup req = none
      ∨ ∃ s1, c.store.lookup req = some s1 ∧ secretProtectionFinalizer ∉ s1.Finalizers) :
    (Reconcile d c req).client = c.record (Call.Get req)
      ∧ (Reconcile d c req).result = Result.empty
      ∧ ((∀ e, c.faults.getErr req = some e → IsNotFound e = true) →
          (Reconcile d c req).err = none) := by
  cases hg : c.faults.getErr req with
  | some e =>
    have hget : (c.Get req).1 = .error e := by
      unfold Client.Get
      rw [hg]
    rw [Reconcile_get_err d c req e hget]
    refine ⟨rfl, rfl, ?_⟩
    intro hben
    simp [hben e rfl]
  | none =>
    rcases h with h | ⟨s1, h, hmark⟩
    · have hget : (c.Get req).1 = .error (Err.status .NotFound "secret not found") := by
        unfold Client.Get
        rw [hg, h]
      rw [Reconcile_get_err d c req _ hget]
      exact ⟨rfl, rfl, fun _ => rfl⟩
    · have hget : (c.Get req).1 = .ok s1 := (Get_ok_iff c req s1).mpr ⟨hg, h⟩
      rw [Reconcile_ignore d c req s1 hget
        (Or.inr (by simpa [ContainsFinalizer] using hmark))]
      exact ⟨rfl, rfl, fun _ => rfl⟩

theorem released_store (d : Nat) (c : Client) (req : NamespacedName)
    (hnoerr : (Reconcile d c req).err = none)
    (hwrite : ∃ call ∈ (Reconcile d c req).issued c, call.isWrite = true) :
    ∃ s, c.store.lookup req = some s
      ∧ c.faults.getErr req = none
      ∧ (Reconcile d c req).client.store
          = c.store.replace (RemoveFinalizer s secretProtectionFinalizer)
      ∧ (Reconcile d c req).client.faults = c.faults := by
  obtain ⟨call, hcall, hw⟩ := hwrite
  cases hg : (c.Get req).1 with
  | error e =>
    rw [Reconcile_get_err d c req e hg, issued_eq _ c [Call.Get req] rfl] at hcall
    rw [List.mem_singleton.mp hcall] at hw
    cases hw
  | ok s =>
    have hS : c.store.lookup req = some s := ((Get_ok_iff c req s).mp hg).2
    refine ⟨s, hS, ((Get_ok_iff c req s).mp hg).1, ?_⟩
    by_cases hp : markedForDeletion s = true
        ∧ ContainsFinalizer s secretProtectionFinalizer = true
    · obtain ⟨hm, hf⟩ := hp
      rcases Reconcile_pending_cases d c req s hg hm hf with
        ⟨pre, l1, post, _, _, _, hrec⟩ | ⟨pre, l1, post, e1, _, _, _, _, hrec⟩ | ⟨_, hrec⟩
      · rw [hrec, issued_eq _ c (Call.Get req :: (pre ++ [l1]).map (probeCall s)) rfl]
          at hcall
        rw [reads_not_write s req (pre ++ [l1]) call hcall] at hw
        cases hw
      · rw [hrec] at hnoerr
        cases hnoerr
      · cases hu : c.faults.updateErr (RemoveFinalizer s secretProtectionFinalizer) with
        | some e =>
          rw [hrec, hu] at hnoerr
          cases hnoerr
        | none =>
          rw [hrec, hu]
          exact ⟨rfl, rfl⟩
    · have hgd : markedForDeletion s = false
          ∨ ContainsFinalizer s secretProtectionFinalizer = false := by
        cases hm : markedForDeletion s
        · exact Or.inl rfl
        · cases hf : ContainsFinalizer s secretProtectionFinalizer
          · exact Or.inr rfl
          · exact absurd ⟨hm, hf⟩ hp
      rw [Reconcile_ignore d c req s hg hgd, issued_eq _ c [Call.Get req] rfl] at hcall
      rw [List.mem_singleton.mp hcall] at hw
      cases hw

/-- C8: after a run of `Reconcile` that released the Secret (it wrote to the
store and returned no error), a second run with no change in between is a
no-op.  Whether the Secret still exists without the marker, or the store has
swept it away, or it is absent for any other reason, the second run issues the
Get and nothing else, returns the empty result (no requeue), leaves the store
identical, and returns no error unless the Get itself fails with an error other
than NotFound. -/
theorem C8_second_reconcile_is_noop (d : Nat) (c : Client) (req : NamespacedName)
    (hnoerr : (Reconcile d c req).err = none)
    (hwrite : ∃ call ∈ (Reconcile d c req).issued c, call.isWrite = true) :
    (∀ c1 : Client,
        (c1.store = (Reconcile d c req).client.store
          ∨ c1.store = (Reconcile d c req).client.store.sweep
          ∨ (c1.store.lookup req = none
              ∧ c1.store.objects = (Reconcile d c req).client.store.objects)) →
        (Reconcile d c1 req).client.store = c1.store
          ∧ (Reconcile d c1 req).issued c1 = [Call.Get req]
          ∧ (Reconcile d c1 req).result = Result.empty
          ∧ (Reconcile d c1 req).result.Requeue = false
          ∧ (Reconcile d c1 req).result.RequeueAfter = 0
          ∧ ((∀ e, c1.faults.getErr req = some e → IsNotFound e = true) →
              (Reconcile d c1 req).err = none))
      ∧ (Reconcile d (Reconcile d c req).client req).err = none
      ∧ (Reconcile d (Reconcile d c req).client req).client.store
          = (Reconcile d c req).client.store := by
  obtain ⟨s, hS, hgetErr, hstore, hfl⟩ := released_store d c req hnoerr hwrite
  have hkey : (RemoveFinalizer s secretProtectionFinalizer).key = req :=
    lookup_some_key c.store req s hS
  have hgone : secretProtectionFinalizer
      ∉ (RemoveFinalizer s secretProtectionFinalizer).Finalizers := by
    intro hin
    exact ((mem_removed_iff s.Finalizers secretProtectionFinalizer
      secretProtectionFinalizer).mp hin).2 rfl
  have hlook : ∀ c1 : Client,
      (c1.store = (Reconcile d c req).client.store
        ∨ c1.store = (Reconcile d c req).client.store.sweep
        ∨ (c1.store.lookup req = none
            ∧ c1.store.objects = (Reconcile d c req).client.store.objects)) →
      (c1.store.lookup req = none
        ∨ ∃ s1, c1.store.lookup req = some s1 ∧ secretProtectionFinalizer ∉ s1.Finalizers) := by
    intro c1 h1
    rcases h1 with h1 | h1 | ⟨h1, _⟩
    · right
      refine ⟨RemoveFinalizer s secretProtectionFinalizer, ?_, hgone⟩
      rw [h1, hstore]
      simp only [lookup_replace, hkey, hS, if_true, Option.map_some']
    · rw [h1, hstore, ← hkey]
      rcases sweep_lookup c.store (RemoveFinalizer s secretProtectionFinalizer) with h | h
      · exact Or.inl h
      · exact Or.inr ⟨_, h, hgone⟩
    · exact Or.inl h1
  have hsecond : ∀ c1 : Client,
      (c1.store.lookup req = none
        ∨ ∃ s1, c1.store.lookup req = some s1 ∧ secretProtectionFinalizer ∉ s1.Finalizers) →
      (Reconcile d c1 req).client.store = c1.store
        ∧ (Reconcile d c1 req).issued c1 = [Call.Get req]
        ∧ (Reconcile d c1 req).result = Result.empty
        ∧ (Reconcile d c1 req).result.Requeue = false
        ∧ (Reconcile d c1 req).result.RequeueAfter = 0
        ∧ ((∀ e, c1.faults.getErr req = some e → IsNotFound e = true) →
            (Reconcile d c1 req).err = none) := by
    intro c1 h1
    obtain ⟨hcl, hres, herr⟩ := Reconcile_noop_of_lookup d c1 req h1
    refine ⟨by rw [hcl]; rfl, issued_eq _ c1 _ (by rw [hcl]; rfl), hres, by rw [hres]; rfl,
      by rw [hres]; rfl, herr⟩
  refine ⟨fun c1 h1 => hsecond c1 (hlook c1 h1), ?_, ?_⟩
  · have hfaults : (Reconcile d c req).client.faults.getErr req = none := by
      rw [hfl]
      exact hgetErr
    exact (hsecond _ (hlook _ (Or.inl rfl))).2.2.2.2.2 (fun e he => by rw [hfaults] at he; cases he)
  · exact (hsecond _ (hlook _ (Or.inl rfl))).1

/-- Witness of C8: `db-creds` is released by a first run; the second run on the
client the first one left returns no error and leaves the store as it is. -/
theorem C8_second_reconcile_is_noop_witness :
    (Reconcile 10 (Reconcile 10 (clientOf storeUnreferenced noFaults) dbCreds.key).client
        dbCreds.key).err = none
      ∧ (Reconcile 10 (Reconcile 10 (clientOf storeUnreferenced noFaults) dbCreds.key).client
          dbCreds.key).client.store
          = (Reconcile 10 (clientOf storeUnreferenced noFaults) dbCreds.key).client.store :=
  (C8_second_reconcile_is_noop 10 (clientOf storeUnreferenced noFaults) dbCreds.key
    (by decide)
    ⟨Call.Update (RemoveFinalizer dbCreds secretProtectionFinalizer), by decide, rfl⟩).2

end SecretGC
